import Mathlib

/-!
Verification of the sudoku generator's board model and generation algorithm.

The Rust program is shallowly embedded: each source function becomes a Lean
definition with the same name.  Machine arrays indexed by in-range coordinates
become total functions on `Nat`; a Rust index operation that may go out of
bounds (the digit set) becomes an `Option`-returning definition where `none`
is the panic.  Recursive functions whose termination depends on run-time data
take a fuel parameter.  The random number generator is an abstract, injected
dependency: a state type `σ` together with shuffle functions, quantified over
in every theorem.
-/

set_option maxHeartbeats 1000000
set_option maxRecDepth 100000

/-- Tile: `Empty` or `Filled(digit)` (Rust digit is a `u8`, modelled as `Nat`). -/
inductive Tile where
  | Empty : Tile
  | Filled : Nat → Tile
deriving DecidableEq, Repr

/-- A board coordinate: column `x`, row `y`. -/
structure Coord where
  x : Nat
  y : Nat
deriving DecidableEq, Repr

@[reducible] def BOARD_SIZE : Nat := 9

@[reducible] def BLOCK_SIZE : Nat := 3

def Coord.to_vec_position (c : Coord) : Nat :=
  c.y * BOARD_SIZE + c.x

def Coord.to_block_index (c : Coord) : Nat :=
  c.y / BLOCK_SIZE * BLOCK_SIZE + c.x / BLOCK_SIZE

def Coord.to_index_in_block (c : Coord) : Nat :=
  c.y % BLOCK_SIZE * BLOCK_SIZE + c.x % BLOCK_SIZE

/-- The 9×9 grid stored redundantly as rows, columns and blocks.
`rows y x` is the tile of row `y` at column `x` (Rust `rows[y][x]`),
`columns x y` is `columns[x][y]`, `blocks i j` is `blocks[i][j]` for block
index `i` and index-in-block `j`.  The Rust arrays are only ever indexed with
in-range coordinates (in-range by construction of the callers, as the spec
notes), so total functions are a faithful model on that range. -/
structure Board where
  rows : Nat → Nat → Tile
  columns : Nat → Nat → Tile
  blocks : Nat → Nat → Tile

/-- The `impl Default for Board`: the all-empty board. -/
def Board.default : Board :=
  { rows := fun _ _ => Tile.Empty
    columns := fun _ _ => Tile.Empty
    blocks := fun _ _ => Tile.Empty }

def Board.get_tile (b : Board) (c : Coord) : Tile :=
  b.rows c.y c.x

def Board.set_tile_in_place (b : Board) (c : Coord) (value : Tile) : Board :=
  { rows := fun y x => if y = c.y ∧ x = c.x then value else b.rows y x
    columns := fun x y => if x = c.x ∧ y = c.y then value else b.columns x y
    blocks := fun i j =>
      if i = c.to_block_index ∧ j = c.to_index_in_block then value else b.blocks i j }

/-- Source `set_tile`: clones the board and applies `set_tile_in_place` to the clone. -/
def Board.set_tile (b : Board) (c : Coord) (value : Tile) : Board :=
  b.set_tile_in_place c value

def Board.get_row_for_coord (b : Board) (c : Coord) : List Tile :=
  (List.range BOARD_SIZE).map (fun x => b.rows c.y x)

def Board.get_column_for_coord (b : Board) (c : Coord) : List Tile :=
  (List.range BOARD_SIZE).map (fun y => b.columns c.x y)

/-- Source `get_block_for_coord` as written: it reads the **columns**
array at index `(x * y) / BOARD_SIZE`. -/
def Board.get_block_for_coord (b : Board) (c : Coord) : List Tile :=
  (List.range BOARD_SIZE).map (fun y => b.columns ((c.x * c.y) / BOARD_SIZE) y)

/-- The tiles of block `i` (`self.blocks[i]` as a sequence). -/
def Board.block_tiles (b : Board) (i : Nat) : List Tile :=
  (List.range BOARD_SIZE).map (fun j => b.blocks i j)

/-- The digit set: `data` is a boolean array of length `BOARD_SIZE + 1 = 10`. -/
structure SudokuHashSet where
  data : List Bool
deriving DecidableEq, Repr

def SudokuHashSet.new : SudokuHashSet :=
  ⟨List.replicate (BOARD_SIZE + 1) false⟩

/-- Write `self.data[num] = true`; `none` is the Rust panic when `num` is out of
bounds (the array write `data[num]` is unchecked in the source). -/
def SudokuHashSet.insert (s : SudokuHashSet) (num : Nat) : Option SudokuHashSet :=
  if num < s.data.length then some ⟨s.data.set num true⟩ else none

/-- Read `self.data[num]`; `none` is the Rust panic when `num` is out of bounds. -/
def SudokuHashSet.contains (s : SudokuHashSet) (num : Nat) : Option Bool :=
  s.data.get? num

/-- The loop of `is_valid_tile_set` carrying the `seen_numbers` set; `none`
propagates a digit-set panic (a digit outside `0..=9`). -/
def Board.valid_tiles_from : List Tile → SudokuHashSet → Option Bool
  | [], _ => some true
  | Tile.Empty :: rest, seen => Board.valid_tiles_from rest seen
  | Tile.Filled num :: rest, seen =>
    match seen.contains num with
    | none => none
    | some true => some false
    | some false =>
      match seen.insert num with
      | none => none
      | some seen' => Board.valid_tiles_from rest seen'

/-- Source `is_valid_tile_set`: no filled digit repeats in the sequence. -/
def Board.is_valid_tile_set (tiles : List Tile) : Option Bool :=
  Board.valid_tiles_from tiles SudokuHashSet.new

/-- The three `verify_board` loops: check each tile sequence in order,
returning `false` at the first invalid one. -/
def Board.check_tile_sets : List (List Tile) → Option Bool
  | [] => some true
  | ts :: rest =>
    match Board.is_valid_tile_set ts with
    | none => none
    | some false => some false
    | some true => Board.check_tile_sets rest

/-- Source `verify_board`: rows, then columns, then blocks. -/
def Board.verify_board (b : Board) : Option Bool :=
  Board.check_tile_sets
    ((List.range BOARD_SIZE).map (fun row => b.get_row_for_coord ⟨0, row⟩) ++
     (List.range BOARD_SIZE).map (fun col => b.get_column_for_coord ⟨col, 0⟩) ++
     (List.range BOARD_SIZE).map (fun block => b.block_tiles block))

/-- Source `is_complete`: no cell of the rows view is `Empty`. -/
def Board.is_complete (b : Board) : Bool :=
  !((List.range BOARD_SIZE).any fun y =>
    (List.range BOARD_SIZE).any fun x =>
      match b.rows y x with
      | Tile.Empty => true
      | Tile.Filled _ => false)

/-- The 81 coordinates in the order of the `get_filled_tile_coords` loops
(`x` outer, `y` inner). -/
def Board.all_coords : List Coord :=
  (List.range BOARD_SIZE).flatMap fun x => (List.range BOARD_SIZE).map fun y => Coord.mk x y

/-- Whether the cell at `c` holds a digit (the match of the
`get_filled_tile_coords` loop body). -/
def Board.tile_filled (b : Board) (c : Coord) : Bool :=
  match b.get_tile c with
  | Tile.Empty => false
  | Tile.Filled _ => true

/-- Source `get_filled_tile_coords`: the coordinates currently holding a digit. -/
def Board.get_filled_tile_coords (b : Board) : List Coord :=
  Board.all_coords.filter b.tile_filled

example : Board.default.verify_board = some true := by rfl
example : Board.default.is_complete = false := by rfl
example : Board.default.get_filled_tile_coords.length = 0 := by rfl
example : (Coord.mk 3 3).to_block_index = 4 := by rfl
example : (Coord.mk 2 3).to_block_index = 3 := by rfl
example : (Coord.mk 3 3).to_index_in_block = 0 := by rfl
example : (Coord.mk 2 3).to_index_in_block = 2 := by rfl
example : Board.all_coords.length = 81 := by rfl

/-! ## The board generator -/

inductive BoardGeneratorError where
  | NoNumberAvailable : BoardGeneratorError
  | MultipleSolutionsAvailable : BoardGeneratorError
  | NoDeletionsAvailable : Board → BoardGeneratorError

/-- The injected random source: a state type `σ` and the two shuffle
operations the generator performs (`rand`'s `shuffle` on a number list and on
a coordinate list).  Theorems quantify over arbitrary sources. -/
structure Rng (σ : Type) where
  shuffleNums : List Nat → σ → List Nat × σ
  shuffleCoords : List Coord → σ → List Coord × σ

/-- A random source is lawful when its shuffles permute their input, as
`rand::SliceRandom::shuffle` does. -/
def Rng.Lawful {σ : Type} (rng : Rng σ) : Prop :=
  (∀ l s, (rng.shuffleNums l s).1.Perm l) ∧ (∀ l s, (rng.shuffleCoords l s).1.Perm l)

/-- Outcome of running a generator function: a returned value or `Err` pair
with the final random-source state, a Rust panic, or fuel exhaustion (an
artifact of the embedding, never an actual program behaviour). -/
inductive GenOut (σ : Type) (α : Type) where
  | ok : α → σ → GenOut σ α
  | err : BoardGeneratorError → σ → GenOut σ α
  | panic : GenOut σ α
  | fuelOut : GenOut σ α

/-- The filter `(1..BOARD_SIZE + 1).filter(|num| !excluding.contains(num))`;
`none` propagates a digit-set panic from `contains`. -/
def exclude_nums (excluding : SudokuHashSet) : List Nat → Option (List Nat)
  | [] => some []
  | n :: rest =>
    match excluding.contains n with
    | none => none
    | some true => exclude_nums excluding rest
    | some false => (exclude_nums excluding rest).map (n :: ·)

/-- Outcome of the candidate loop of `update_board_with_random_number`. -/
inductive UpdateOut where
  | found : Nat → Board → UpdateOut
  | exhausted : UpdateOut
  | panicked : UpdateOut

/-- The candidate loop of `update_board_with_random_number`: write each
candidate into `new_board` in turn and return the first one for which
`verify_board` passes. -/
def update_tile_loop (coord : Coord) (new_board : Board) : List Nat → UpdateOut
  | [] => UpdateOut.exhausted
  | num :: rest =>
    let nb := new_board.set_tile_in_place coord (Tile.Filled num)
    match nb.verify_board with
    | none => UpdateOut.panicked
    | some true => UpdateOut.found num nb
    | some false => update_tile_loop coord nb rest

/-- Source `update_board_with_random_number`: shuffle the candidate digits not yet
excluded, then place the first locally valid one. -/
def update_board_with_random_number {σ : Type} (rng : Rng σ) (board : Board) (coord : Coord)
    (excluding : SudokuHashSet) (s : σ) : GenOut σ (Nat × Board) :=
  match exclude_nums excluding ((List.range BOARD_SIZE).map (· + 1)) with
  | none => GenOut.panic
  | some nums =>
    let shuffled := rng.shuffleNums nums s
    match update_tile_loop coord board shuffled.1 with
    | UpdateOut.found num nb => GenOut.ok (num, nb) shuffled.2
    | UpdateOut.exhausted => GenOut.err BoardGeneratorError.NoNumberAvailable shuffled.2
    | UpdateOut.panicked => GenOut.panic

/-- The first `Empty` coordinate in the scan order of `try_fill_board`
(`x` outer, `y` inner). -/
def first_empty_coord (board : Board) : Option Coord :=
  (List.range BOARD_SIZE).findSome? fun x =>
    (List.range BOARD_SIZE).findSome? fun y =>
      match board.get_tile ⟨x, y⟩ with
      | Tile.Empty => some ⟨x, y⟩
      | Tile.Filled _ => none

mutual

/-- Source `try_fill_board`: find the first empty cell and run the backtracking loop
on it; with no empty cell left, return the board if complete (the
`panic!("Shouldn't be reachable")` branch otherwise). -/
def try_fill_board {σ : Type} (rng : Rng σ) (fuel : Nat) (board : Board) (s : σ) :
    GenOut σ Board :=
  match fuel with
  | 0 => GenOut.fuelOut
  | fuel' + 1 =>
    match first_empty_coord board with
    | some coord => fill_cell_loop rng fuel' board coord SudokuHashSet.new s
    | none => if board.is_complete then GenOut.ok board s else GenOut.panic
termination_by structural fuel

/-- The `loop` of `try_fill_board` at one cell: pick a random valid digit,
recurse on the updated board, and on `NoNumberAvailable` from the recursion
exclude the digit and retry; any other error propagates. -/
def fill_cell_loop {σ : Type} (rng : Rng σ) (fuel : Nat) (board : Board) (coord : Coord)
    (excluding : SudokuHashSet) (s : σ) : GenOut σ Board :=
  match fuel with
  | 0 => GenOut.fuelOut
  | fuel' + 1 =>
    match update_board_with_random_number rng board coord excluding s with
    | GenOut.err e s' => GenOut.err e s'
    | GenOut.panic => GenOut.panic
    | GenOut.fuelOut => GenOut.fuelOut
    | GenOut.ok (num, board') s' =>
      match excluding.insert num with
      | none => GenOut.panic
      | some excluding' =>
        match try_fill_board rng fuel' board' s' with
        | GenOut.ok b s'' => GenOut.ok b s''
        | GenOut.err BoardGeneratorError.NoNumberAvailable s'' =>
          fill_cell_loop rng fuel' board coord excluding' s''
        | GenOut.err e s'' => GenOut.err e s''
        | GenOut.panic => GenOut.panic
        | GenOut.fuelOut => GenOut.fuelOut
termination_by structural fuel

end

/-! ## The carver (`try_empty_board`) -/

/-- The alternate digits tried for a cell holding `original_value`:
`(1..BOARD_SIZE + 1).filter(|num| *num != *original_value)`. -/
def alt_digits (original_value : Nat) : List Nat :=
  ((List.range BOARD_SIZE).map (· + 1)).filter (fun num => num ≠ original_value)

/-- The inner loop computing `is_replacable_by_something_else` for the cell at
`coord` (current digit `original_value`): for each alternate digit, substitute
it; when the substituted board passes `verify_board`, try to fill it.  A
successful fill (or a `MultipleSolutionsAvailable` error) marks the coordinate
unreplaceable and records `has_options`; `NoNumberAvailable` is ignored; any
other fill error aborts the whole carve. -/
def check_alternative_digits {σ : Type} (rng : Rng σ) (fill_fuel : Nat) (board : Board)
    (coord : Coord) : List Nat → Bool → List Coord → σ → GenOut σ (Bool × List Coord)
  | [], has_options, unreplacable_coords, s => GenOut.ok (has_options, unreplacable_coords) s
  | i :: rest, has_options, unreplacable_coords, s =>
    let updated_board := board.set_tile coord (Tile.Filled i)
    match updated_board.verify_board with
    | none => GenOut.panic
    | some false => check_alternative_digits rng fill_fuel board coord rest has_options unreplacable_coords s
    | some true =>
      match try_fill_board rng fill_fuel updated_board s with
      | GenOut.ok _ s' =>
        check_alternative_digits rng fill_fuel board coord rest true (unreplacable_coords ++ [coord]) s'
      | GenOut.err BoardGeneratorError.MultipleSolutionsAvailable s' =>
        check_alternative_digits rng fill_fuel board coord rest true (unreplacable_coords ++ [coord]) s'
      | GenOut.err BoardGeneratorError.NoNumberAvailable s' =>
        check_alternative_digits rng fill_fuel board coord rest has_options unreplacable_coords s'
      | GenOut.err e s' => GenOut.err e s'
      | GenOut.panic => GenOut.panic
      | GenOut.fuelOut => GenOut.fuelOut

/-- The `for random_tile_coord in filled_coords` loop of `try_empty_board`.
Result: the working board, the unreplaceable list, and `has_replaced_a_tile`.
A coordinate whose cell is `Empty` is the `panic!("Empty tile received")`.
The first coordinate that is not replaceable by something else is set to
`Empty` and the loop breaks. -/
def carve_scan {σ : Type} (rng : Rng σ) (fill_fuel : Nat) :
    List Coord → Board → List Coord → σ → GenOut σ (Board × List Coord × Bool)
  | [], board, unreplacable_coords, s => GenOut.ok (board, unreplacable_coords, false) s
  | random_tile_coord :: rest, board, unreplacable_coords, s =>
    match board.get_tile random_tile_coord with
    | Tile.Empty => GenOut.panic
    | Tile.Filled original_value =>
      match check_alternative_digits rng fill_fuel board random_tile_coord
          (alt_digits original_value) false unreplacable_coords s with
      | GenOut.ok (has_options, unreplacable_coords') s' =>
        if has_options then carve_scan rng fill_fuel rest board unreplacable_coords' s'
        else GenOut.ok (board.set_tile random_tile_coord Tile.Empty, unreplacable_coords', true) s'
      | GenOut.err e s' => GenOut.err e s'
      | GenOut.panic => GenOut.panic
      | GenOut.fuelOut => GenOut.fuelOut

/-- Source `try_empty_board`: shuffle the filled coordinates not yet unreplaceable,
scan them for one removable cell, and fail with `NoDeletionsAvailable` when
none was removed; on reaching `desired_cells_given` filled cells return the
board, otherwise recurse.  `carve_fuel` bounds the recursion depth. -/
def try_empty_board {σ : Type} (rng : Rng σ) (fill_fuel : Nat) :
    Nat → Board → Nat → List Coord → σ → GenOut σ Board
  | 0, _, _, _, _ => GenOut.fuelOut
  | carve_fuel + 1, board, desired_cells_given, unreplacable_coords, s =>
    match rng.shuffleCoords ((board.get_filled_tile_coords).filter
        (fun coord => !(unreplacable_coords.contains coord))) s with
    | (shuffled_coords, s₀) =>
      match carve_scan rng fill_fuel shuffled_coords board unreplacable_coords s₀ with
      | GenOut.ok (board', unreplacable_coords', has_replaced_a_tile) s' =>
        if !has_replaced_a_tile then
          GenOut.err (BoardGeneratorError.NoDeletionsAvailable board') s'
        else if board'.get_filled_tile_coords.length = desired_cells_given then
          GenOut.ok board' s'
        else
          try_empty_board rng fill_fuel carve_fuel board' desired_cells_given
            unreplacable_coords' s'
      | GenOut.err e s' => GenOut.err e s'
      | GenOut.panic => GenOut.panic
      | GenOut.fuelOut => GenOut.fuelOut

/-- Source `new_board`: fill an empty board (the `.unwrap()` panics on an error),
then carve it down to `desired_cells_given` clues. -/
def new_board {σ : Type} (rng : Rng σ) (fill_fuel carve_fuel : Nat)
    (desired_cells_given : Nat) (s : σ) : GenOut σ (Board × Board) :=
  match try_fill_board rng fill_fuel Board.default s with
  | GenOut.ok solved_board s' =>
    match try_empty_board rng fill_fuel carve_fuel solved_board desired_cells_given [] s' with
    | GenOut.ok emptied_board s'' => GenOut.ok (solved_board, emptied_board) s''
    | GenOut.err e s'' => GenOut.err e s''
    | GenOut.panic => GenOut.panic
    | GenOut.fuelOut => GenOut.fuelOut
  | GenOut.err _ _ => GenOut.panic
  | GenOut.panic => GenOut.panic
  | GenOut.fuelOut => GenOut.fuelOut

/-! ## The game wrapper (`Game::new_random`) -/

structure Game where
  history : List Board
  current : Board
  solved : Board

inductive GameError where
  | TriesExceeded : GameError
  | BoardGeneratorError : BoardGeneratorError → GameError

inductive GameOut (σ : Type) where
  | ok : Game → σ → GameOut σ
  | err : GameError → σ → GameOut σ
  | panic : GameOut σ
  | fuelOut : GameOut σ

/-- Source `Game::new_random`: up to `max_tries` attempts of `new_board`; a
`NoDeletionsAvailable` failure is retried, any other generation error is
returned immediately, and exhausting the attempts yields `TriesExceeded`. -/
def new_random {σ : Type} (rng : Rng σ) (fill_fuel carve_fuel : Nat) :
    Nat → Nat → σ → GameOut σ
  | 0, _, s => GameOut.err GameError.TriesExceeded s
  | max_tries + 1, desired_cells_given, s =>
    match new_board rng fill_fuel carve_fuel desired_cells_given s with
    | GenOut.ok (solved, emptied) s' => GameOut.ok ⟨[], emptied, solved⟩ s'
    | GenOut.err (BoardGeneratorError.NoDeletionsAvailable _) s' =>
      new_random rng fill_fuel carve_fuel max_tries desired_cells_given s'
    | GenOut.err e s' => GameOut.err (GameError.BoardGeneratorError e) s'
    | GenOut.panic => GameOut.panic
    | GenOut.fuelOut => GameOut.fuelOut

/-! ## Concrete test fixtures

A scripted random source (each shuffle pops the head of a script) and a
canonical solved grid, used to exercise the theorems on concrete runs. -/

/-- State of the scripted source: a queue of number lists for `shuffleNums`
and a queue of coordinate lists for `shuffleCoords`. -/
def ScriptState : Type := List (List Nat) × List (List Coord)

def script_rng : Rng ScriptState :=
  { shuffleNums := fun _ s => (s.1.headD [], (s.1.tail, s.2))
    shuffleCoords := fun _ s => (s.2.headD [], (s.1, s.2.tail)) }

/-- Digit of the canonical solved grid at column `x`, row `y`. -/
def canonical_digit (x y : Nat) : Nat :=
  (x + 3 * y + y / 3) % 9 + 1

/-- The cell digits in the fill scan order (`x` outer, `y` inner), fed to the
scripted source so that the filler places each cell's digit first try. -/
def fill_script : List (List Nat) :=
  (List.range 9).flatMap fun x => (List.range 9).map fun y => [canonical_digit x y]

def fill_demo : GenOut ScriptState Board :=
  try_fill_board script_rng 200 Board.default (fill_script, [])

def fill_demo_board : Board :=
  match fill_demo with
  | GenOut.ok b _ => b
  | _ => Board.default

def fill_demo_state : ScriptState :=
  match fill_demo with
  | GenOut.ok _ s => s
  | _ => ([], [])

/-! ## Claim-level predicates -/

/-- The three views agree at every in-range coordinate. -/
def Board.Consistent (b : Board) : Prop :=
  ∀ x, x < BOARD_SIZE → ∀ y, y < BOARD_SIZE →
    b.rows y x = b.columns x y ∧
    b.rows y x = b.blocks (Coord.mk x y).to_block_index (Coord.mk x y).to_index_in_block

instance (b : Board) : Decidable b.Consistent := by
  unfold Board.Consistent; infer_instance

/-- A tile of the spec's data model: empty, or a digit in `[1, 9]`. -/
def Tile.WellFormed : Tile → Prop
  | Tile.Empty => True
  | Tile.Filled d => 1 ≤ d ∧ d ≤ 9

instance : ∀ t : Tile, Decidable t.WellFormed
  | Tile.Empty => isTrue trivial
  | Tile.Filled d => inferInstanceAs (Decidable (1 ≤ d ∧ d ≤ 9))

/-- Every cell of every view holds a tile of the spec's data model. -/
def Board.WellFormed (b : Board) : Prop :=
  ∀ i, i < BOARD_SIZE → ∀ j, j < BOARD_SIZE →
    (b.rows i j).WellFormed ∧ (b.columns i j).WellFormed ∧ (b.blocks i j).WellFormed

instance (b : Board) : Decidable b.WellFormed := by
  unfold Board.WellFormed; infer_instance

/-- Two tiles do not hold the same digit. -/
def Tile.DistinctFilled : Tile → Tile → Prop
  | Tile.Filled d₁, Tile.Filled d₂ => d₁ ≠ d₂
  | _, _ => True

instance : ∀ t₁ t₂ : Tile, Decidable (Tile.DistinctFilled t₁ t₂)
  | Tile.Empty, Tile.Empty => isTrue trivial
  | Tile.Empty, Tile.Filled _ => isTrue trivial
  | Tile.Filled _, Tile.Empty => isTrue trivial
  | Tile.Filled d₁, Tile.Filled d₂ => inferInstanceAs (Decidable (d₁ ≠ d₂))

/-- No two tiles of the sequence hold the same digit (the spec's reading of
"no duplicate filled digit"; empty tiles never count). -/
def TilesNoDupDigit (l : List Tile) : Prop :=
  l.Pairwise Tile.DistinctFilled

instance (l : List Tile) : Decidable (TilesNoDupDigit l) := by
  unfold TilesNoDupDigit; infer_instance

/-- Every filled cell of `clue` holds the same digit in `solved`. -/
def Board.SubsetAssign (clue solved : Board) : Prop :=
  ∀ x, x < BOARD_SIZE → ∀ y, y < BOARD_SIZE → ∀ d,
    clue.get_tile ⟨x, y⟩ = Tile.Filled d → solved.get_tile ⟨x, y⟩ = Tile.Filled d

/-- All cells outside the 9×9 range of the rows view are empty (boards
reachable from `Board.default` satisfy this). -/
def Board.EmptyOutside (b : Board) : Prop :=
  ∀ x y, BOARD_SIZE ≤ x ∨ BOARD_SIZE ≤ y → b.rows y x = Tile.Empty

/-! ## Coordinate mapping lemmas (shared helpers) -/

lemma block_pair_inj {x y a b : Nat} (hx : x < 9) (hy : y < 9) (ha : a < 9) (hb : b < 9)
    (h1 : (Coord.mk x y).to_block_index = (Coord.mk a b).to_block_index)
    (h2 : (Coord.mk x y).to_index_in_block = (Coord.mk a b).to_index_in_block) :
    x = a ∧ y = b := by
  simp only [Coord.to_block_index, Coord.to_index_in_block, BLOCK_SIZE] at h1 h2
  omega

lemma get_tile_set_tile (b : Board) (c : Coord) (v : Tile) (c' : Coord) :
    (b.set_tile c v).get_tile c' = if c'.y = c.y ∧ c'.x = c.x then v else b.get_tile c' := by
  rfl

/-- C9 — the map from an in-range coordinate to its (block index,
index-in-block) pair is injective, lands in `[0,9)×[0,9)`, and is onto it. -/
theorem block_slot_pair_bijective :
    (∀ c₁ c₂ : Coord, c₁.x < BOARD_SIZE → c₁.y < BOARD_SIZE →
      c₂.x < BOARD_SIZE → c₂.y < BOARD_SIZE →
      c₁.to_block_index = c₂.to_block_index →
      c₁.to_index_in_block = c₂.to_index_in_block → c₁ = c₂) ∧
    (∀ c : Coord, c.x < BOARD_SIZE → c.y < BOARD_SIZE →
      c.to_block_index < BOARD_SIZE ∧ c.to_index_in_block < BOARD_SIZE) ∧
    (∀ bi, bi < BOARD_SIZE → ∀ ib, ib < BOARD_SIZE → ∃ x, x < BOARD_SIZE ∧ ∃ y, y < BOARD_SIZE ∧
      (Coord.mk x y).to_block_index = bi ∧ (Coord.mk x y).to_index_in_block = ib) := by
  refine ⟨?_, ?_, by decide⟩
  · intro c₁ c₂ hx₁ hy₁ hx₂ hy₂ h1 h2
    obtain ⟨hx, hy⟩ := block_pair_inj (b := c₂.y) hx₁ hy₁ hx₂ hy₂ h1 h2
    cases c₁; cases c₂; simp_all
  · intro c hx hy
    simp only [Coord.to_block_index, Coord.to_index_in_block, BLOCK_SIZE, BOARD_SIZE] at *
    omega

/-- C9 witness: the injectivity applied at a concrete pair of coordinates. -/
theorem block_slot_pair_bijective_witness :
    (Coord.mk 4 5) = (Coord.mk 4 5) ∧ (Coord.mk 4 5).to_block_index < BOARD_SIZE :=
  ⟨block_slot_pair_bijective.1 ⟨4, 5⟩ ⟨4, 5⟩ (by decide) (by decide) (by decide) (by decide)
      rfl rfl,
    (block_slot_pair_bijective.2.1 ⟨4, 5⟩ (by decide) (by decide)).1⟩

/-- C7 — the three-view consistency invariant holds for the default board and
is preserved by `set_tile_in_place` (hence by `set_tile`) at every in-range
coordinate. -/
theorem consistency_preserved :
    Board.default.Consistent ∧
    ∀ (b : Board) (c : Coord) (v : Tile), c.x < BOARD_SIZE → c.y < BOARD_SIZE →
      b.Consistent → (b.set_tile_in_place c v).Consistent ∧ (b.set_tile c v).Consistent := by
  constructor
  · decide
  · intro b c v hcx hcy hcons
    have main : (b.set_tile_in_place c v).Consistent := by
      intro x hx y hy
      simp only [Board.set_tile_in_place]
      by_cases hxy : x = c.x ∧ y = c.y
      · obtain ⟨hx', hy'⟩ := hxy
        subst hx'; subst hy'
        simp
      · have hrow : ¬(y = c.y ∧ x = c.x) := fun ⟨h1, h2⟩ => hxy ⟨h2, h1⟩
        have hcol : ¬(x = c.x ∧ y = c.y) := hxy
        have hblk : ¬((Coord.mk x y).to_block_index = c.to_block_index ∧
            (Coord.mk x y).to_index_in_block = c.to_index_in_block) := by
          rintro ⟨h1, h2⟩
          have : (⟨c.x, c.y⟩ : Coord) = c := rfl
          rw [← this] at h1 h2
          exact hxy (block_pair_inj hx hy hcx hcy h1 h2)
        rw [if_neg hrow, if_neg hcol, if_neg hblk]
        exact hcons x hx y hy
    exact ⟨main, main⟩

/-- C7 witness: preservation applied to a concrete write on the default
board. -/
theorem consistency_preserved_witness :
    (Board.default.set_tile_in_place ⟨2, 3⟩ (Tile.Filled 5)).Consistent ∧
    (Board.default.set_tile ⟨2, 3⟩ (Tile.Filled 5)).Consistent :=
  consistency_preserved.2 Board.default ⟨2, 3⟩ (Tile.Filled 5) (by decide) (by decide)
    consistency_preserved.1

/-! ## C5: `get_block_for_coord` -/

/-- A consistent board holding one digit, at column 1 of row 0. -/
def c5_board : Board :=
  Board.default.set_tile ⟨1, 0⟩ (Tile.Filled 1)

/-- C5 counterexample — on a consistent board, `get_block_for_coord` at the
in-range coordinate (1, 0) does not return the tiles of the block containing
(1, 0): the accessor reads a column, not a block. -/
theorem get_block_for_coord_mismatch :
    c5_board.Consistent ∧ (1 : Nat) < BOARD_SIZE ∧ (0 : Nat) < BOARD_SIZE ∧
    c5_board.get_block_for_coord ⟨1, 0⟩ ≠
      c5_board.block_tiles (Coord.mk 1 0).to_block_index := by
  exact ⟨by decide, by decide, by decide, by decide⟩

/-- C5 amended — for every consistent board and in-range coordinate,
`get_block_for_coord` returns the 9 tiles of **column** `(x * y) / 9`
(equivalently, under consistency, the tiles at coordinates
`((x * y) / 9, j)` for `j < 9`), not the block containing the coordinate. -/
theorem get_block_for_coord_is_column (b : Board) (c : Coord) (hx : c.x < BOARD_SIZE)
    (hy : c.y < BOARD_SIZE) (hcons : b.Consistent) :
    b.get_block_for_coord c =
      (List.range BOARD_SIZE).map (fun j => b.get_tile ⟨c.x * c.y / BOARD_SIZE, j⟩) := by
  have hx' : c.x < 9 := hx
  have hy' : c.y < 9 := hy
  have hcol : c.x * c.y / BOARD_SIZE < BOARD_SIZE := by
    show c.x * c.y / 9 < 9
    have : c.x * c.y < 81 := by
      calc c.x * c.y ≤ 8 * 8 := Nat.mul_le_mul (by omega) (by omega)
        _ < 81 := by omega
    omega
  unfold Board.get_block_for_coord Board.get_tile
  apply List.map_congr_left
  intro j hj
  rw [List.mem_range] at hj
  exact ((hcons _ hcol j hj).1).symm

/-- C5 amended witness: the column characterisation applied to the concrete
consistent board of the counterexample. -/
theorem get_block_for_coord_is_column_witness :
    c5_board.get_block_for_coord ⟨1, 0⟩ =
      (List.range BOARD_SIZE).map (fun j => c5_board.get_tile ⟨1 * 0 / BOARD_SIZE, j⟩) :=
  get_block_for_coord_is_column c5_board ⟨1, 0⟩ (by decide) (by decide) (by decide)

/-! ## C10: the digit set's unchecked indexing -/

/-- C10 — `insert` and `contains` on a digit set of the program (backing
array of length 10) are total for digits `d ≤ 9` and panic (return `none`)
for every `d ≥ 10`: the indexing is unchecked. -/
theorem sudoku_hash_set_bounds (s : SudokuHashSet)
    (hlen : s.data.length = BOARD_SIZE + 1) (d : Nat) :
    (d ≤ 9 → (s.insert d).isSome ∧ (s.contains d).isSome) ∧
    (10 ≤ d → s.insert d = none ∧ s.contains d = none) := by
  have hlen' : s.data.length = 10 := hlen
  constructor
  · intro hd
    constructor
    · unfold SudokuHashSet.insert
      rw [if_pos (by omega)]
      rfl
    · unfold SudokuHashSet.contains
      rw [Option.isSome_iff_ne_none, ne_eq, List.get?_eq_none]
      omega
  · intro hd
    constructor
    · unfold SudokuHashSet.insert
      rw [if_neg (by omega)]
    · unfold SudokuHashSet.contains
      rw [List.get?_eq_none]
      omega

/-- C10 witness: the fresh set has length 10; digit 3 is in bounds, digit 12
panics. -/
theorem sudoku_hash_set_bounds_witness :
    ((SudokuHashSet.new.insert 3).isSome ∧ (SudokuHashSet.new.contains 3).isSome) ∧
    (SudokuHashSet.new.insert 12 = none ∧ SudokuHashSet.new.contains 12 = none) :=
  ⟨(sudoku_hash_set_bounds SudokuHashSet.new (by decide) 3).1 (by decide),
   (sudoku_hash_set_bounds SudokuHashSet.new (by decide) 12).2 (by decide)⟩

/-! ## C8: `is_valid_tile_set` and `verify_board` -/

lemma contains_new_false : ∀ d, d < 10 → SudokuHashSet.new.contains d = some false := by
  decide

lemma contains_some_of_lt (s : SudokuHashSet) (d : Nat) (hd : d < s.data.length) :
    s.contains d = some (s.data.get ⟨d, hd⟩) := by
  unfold SudokuHashSet.contains
  rw [List.get?_eq_getElem?, List.getElem?_eq_getElem hd]
  rfl

lemma insert_lt (s : SudokuHashSet) (d : Nat) (hd : d < s.data.length) :
    s.insert d = some ⟨s.data.set d true⟩ := by
  unfold SudokuHashSet.insert
  rw [if_pos hd]

lemma contains_insert (s : SudokuHashSet) (d : Nat) (hd : d < s.data.length) (e : Nat) :
    (⟨s.data.set d true⟩ : SudokuHashSet).contains e =
      if d = e then some true else s.contains e := by
  unfold SudokuHashSet.contains
  rw [List.get?_eq_getElem?, List.get?_eq_getElem?, List.getElem?_set]
  by_cases h : d = e
  · rw [if_pos h, if_pos h, if_pos (h ▸ hd)]
  · rw [if_neg h, if_neg h]

/-- Characterisation of the `is_valid_tile_set` loop: it returns `true` iff
the remaining tiles have pairwise distinct digits, none of which was already
seen. -/
lemma valid_tiles_from_iff (l : List Tile) (seen : SudokuHashSet)
    (hlen : seen.data.length = 10) (hwf : ∀ t ∈ l, t.WellFormed) :
    (Board.valid_tiles_from l seen = some true ↔
      TilesNoDupDigit l ∧ ∀ d, Tile.Filled d ∈ l → seen.contains d = some false) := by
  induction l generalizing seen with
  | nil =>
    simp [Board.valid_tiles_from, TilesNoDupDigit]
  | cons t rest ih =>
    match t with
    | Tile.Empty =>
      rw [show Board.valid_tiles_from (Tile.Empty :: rest) seen =
          Board.valid_tiles_from rest seen from rfl]
      rw [ih seen hlen (fun t ht => hwf t (List.mem_cons_of_mem _ ht))]
      unfold TilesNoDupDigit
      rw [List.pairwise_cons]
      constructor
      · rintro ⟨hnd, hfresh⟩
        exact ⟨⟨fun t' _ => by cases t' <;> trivial, hnd⟩,
          fun d hd => hfresh d (by simpa using hd)⟩
      · rintro ⟨⟨_, hnd⟩, hfresh⟩
        exact ⟨hnd, fun d hd => hfresh d (List.mem_cons_of_mem _ hd)⟩
    | Tile.Filled num =>
      have hnum : num < 10 := by
        have := hwf (Tile.Filled num) (List.mem_cons_self _ _)
        unfold Tile.WellFormed at this
        omega
      have hnum' : num < seen.data.length := by omega
      have hcontains := contains_some_of_lt seen num hnum'
      cases hb : seen.data.get ⟨num, hnum'⟩ with
      | true =>
        rw [hb] at hcontains
        have hv : Board.valid_tiles_from (Tile.Filled num :: rest) seen = some false := by
          conv_lhs => rw [show Board.valid_tiles_from (Tile.Filled num :: rest) seen =
            (match seen.contains num with
              | none => none
              | some true => some false
              | some false =>
                match seen.insert num with
                | none => none
                | some seen' => Board.valid_tiles_from rest seen') from rfl]
          rw [hcontains]
        rw [hv]
        constructor
        · intro h; exact absurd h (by simp)
        · rintro ⟨_, hfresh⟩
          have := hfresh num (List.mem_cons_self _ _)
          rw [hcontains] at this
          exact absurd this (by simp)
      | false =>
        rw [hb] at hcontains
        have hv : Board.valid_tiles_from (Tile.Filled num :: rest) seen =
            Board.valid_tiles_from rest ⟨seen.data.set num true⟩ := by
          conv_lhs => rw [show Board.valid_tiles_from (Tile.Filled num :: rest) seen =
            (match seen.contains num with
              | none => none
              | some true => some false
              | some false =>
                match seen.insert num with
                | none => none
                | some seen' => Board.valid_tiles_from rest seen') from rfl]
          rw [hcontains, insert_lt seen num hnum']
        rw [hv]
        have hlen' : (⟨seen.data.set num true⟩ : SudokuHashSet).data.length = 10 := by
          simpa [List.length_set] using hlen
        have hci := contains_insert seen num hnum'
        rw [ih ⟨seen.data.set num true⟩ hlen'
          (fun t ht => hwf t (List.mem_cons_of_mem _ ht))]
        unfold TilesNoDupDigit
        rw [List.pairwise_cons]
        constructor
        · rintro ⟨hnd, hfresh⟩
          refine ⟨⟨?_, hnd⟩, ?_⟩
          · intro t' ht'
            match t' with
            | Tile.Empty => trivial
            | Tile.Filled e =>
              have he := hfresh e ht'
              rw [hci e] at he
              intro hne
              rw [if_pos hne] at he
              exact absurd he (by simp)
          · intro d hd
            rcases List.mem_cons.mp hd with h | h
            · cases Tile.Filled.inj h
              exact hcontains
            · have := hfresh d h
              rw [hci d] at this
              by_cases hnd' : num = d
              · rw [if_pos hnd'] at this
                exact absurd this (by simp)
              · rwa [if_neg hnd'] at this
        · rintro ⟨⟨hdist, hnd⟩, hfresh⟩
          refine ⟨hnd, ?_⟩
          intro d hd
          rw [hci d]
          have hne : num ≠ d := by
            have := hdist (Tile.Filled d) hd
            unfold Tile.DistinctFilled at this
            exact this
          rw [if_neg hne]
          exact hfresh d (List.mem_cons_of_mem _ hd)

/-- The `is_valid_tile_set` loop never panics on well-formed tiles. -/
lemma valid_tiles_from_isSome (l : List Tile) (seen : SudokuHashSet)
    (hlen : seen.data.length = 10) (hwf : ∀ t ∈ l, t.WellFormed) :
    (Board.valid_tiles_from l seen).isSome := by
  induction l generalizing seen with
  | nil => rfl
  | cons t rest ih =>
    match t with
    | Tile.Empty =>
      exact ih seen hlen (fun t ht => hwf t (List.mem_cons_of_mem _ ht))
    | Tile.Filled num =>
      have hnum' : num < seen.data.length := by
        have := hwf (Tile.Filled num) (List.mem_cons_self _ _)
        unfold Tile.WellFormed at this
        omega
      have hcontains := contains_some_of_lt seen num hnum'
      cases hb : seen.data.get ⟨num, hnum'⟩ with
      | true =>
        rw [hb] at hcontains
        have hv : Board.valid_tiles_from (Tile.Filled num :: rest) seen = some false := by
          conv_lhs => rw [show Board.valid_tiles_from (Tile.Filled num :: rest) seen =
            (match seen.contains num with
              | none => none
              | some true => some false
              | some false =>
                match seen.insert num with
                | none => none
                | some seen' => Board.valid_tiles_from rest seen') from rfl]
          rw [hcontains]
        rw [hv]
        rfl
      | false =>
        rw [hb] at hcontains
        have hv : Board.valid_tiles_from (Tile.Filled num :: rest) seen =
            Board.valid_tiles_from rest ⟨seen.data.set num true⟩ := by
          conv_lhs => rw [show Board.valid_tiles_from (Tile.Filled num :: rest) seen =
            (match seen.contains num with
              | none => none
              | some true => some false
              | some false =>
                match seen.insert num with
                | none => none
                | some seen' => Board.valid_tiles_from rest seen') from rfl]
          rw [hcontains, insert_lt seen num hnum']
        rw [hv]
        exact ih ⟨seen.data.set num true⟩ (by simpa [List.length_set] using hlen)
          (fun t ht => hwf t (List.mem_cons_of_mem _ ht))

lemma is_valid_tile_set_iff (l : List Tile) (hwf : ∀ t ∈ l, t.WellFormed) :
    Board.is_valid_tile_set l = some true ↔ TilesNoDupDigit l := by
  unfold Board.is_valid_tile_set
  rw [valid_tiles_from_iff l SudokuHashSet.new (by rfl) hwf]
  constructor
  · exact fun h => h.1
  · intro h
    exact ⟨h, fun d hd => by
      have := hwf (Tile.Filled d) hd
      unfold Tile.WellFormed at this
      exact contains_new_false d (by omega)⟩

lemma is_valid_tile_set_false (l : List Tile) (hwf : ∀ t ∈ l, t.WellFormed)
    (h : ¬ TilesNoDupDigit l) : Board.is_valid_tile_set l = some false := by
  have hsome := valid_tiles_from_isSome l SudokuHashSet.new (by rfl) hwf
  have hne : Board.is_valid_tile_set l ≠ some true := fun hc =>
    h ((is_valid_tile_set_iff l hwf).mp hc)
  unfold Board.is_valid_tile_set at hne ⊢
  cases hv : Board.valid_tiles_from l SudokuHashSet.new with
  | none => rw [hv] at hsome; exact absurd hsome (by simp)
  | some b =>
    cases b with
    | true => exact absurd hv hne
    | false => rfl

/-- The `verify_board` loops return `true` iff every checked tile sequence is
valid. -/
lemma check_tile_sets_iff (L : List (List Tile))
    (hsome : ∀ ts ∈ L, (Board.is_valid_tile_set ts).isSome) :
    Board.check_tile_sets L = some true ↔
      ∀ ts ∈ L, Board.is_valid_tile_set ts = some true := by
  induction L with
  | nil => simp [Board.check_tile_sets]
  | cons ts rest ih =>
    have hs := hsome ts (List.mem_cons_self _ _)
    cases hv : Board.is_valid_tile_set ts with
    | none => rw [hv] at hs; exact absurd hs (by simp)
    | some b =>
      have hstep : Board.check_tile_sets (ts :: rest) =
          match Board.is_valid_tile_set ts with
          | none => none
          | some false => some false
          | some true => Board.check_tile_sets rest := rfl
      cases b with
      | false =>
        rw [hstep, hv]
        constructor
        · intro h; exact absurd h (by simp)
        · intro h
          have := h ts (List.mem_cons_self _ _)
          rw [hv] at this
          exact absurd this (by simp)
      | true =>
        rw [hstep, hv]
        rw [ih (fun ts' hts' => hsome ts' (List.mem_cons_of_mem _ hts'))]
        constructor
        · intro h ts' hts'
          rcases List.mem_cons.mp hts' with h' | h'
          · rw [h']; exact hv
          · exact h ts' h'
        · intro h ts' hts'
          exact h ts' (List.mem_cons_of_mem _ hts')

/-- The tile sequences checked by `verify_board`, in order. -/
def Board.verify_sets (b : Board) : List (List Tile) :=
  (List.range BOARD_SIZE).map (fun row => b.get_row_for_coord ⟨0, row⟩) ++
  (List.range BOARD_SIZE).map (fun col => b.get_column_for_coord ⟨col, 0⟩) ++
  (List.range BOARD_SIZE).map (fun block => b.block_tiles block)

lemma verify_board_eq_check (b : Board) :
    b.verify_board = Board.check_tile_sets b.verify_sets := rfl

lemma verify_sets_wf (b : Board) (hwf : b.WellFormed) :
    ∀ ts ∈ b.verify_sets, ∀ t ∈ ts, t.WellFormed := by
  intro ts hts t ht
  unfold Board.verify_sets at hts
  rcases List.mem_append.mp hts with h | h
  · rcases List.mem_append.mp h with h' | h'
    · obtain ⟨row, hrow, rfl⟩ := List.mem_map.mp h'
      rw [List.mem_range] at hrow
      obtain ⟨x, hx, rfl⟩ := List.mem_map.mp ht
      rw [List.mem_range] at hx
      exact (hwf row hrow x hx).1
    · obtain ⟨col, hcol, rfl⟩ := List.mem_map.mp h'
      rw [List.mem_range] at hcol
      obtain ⟨y, hy, rfl⟩ := List.mem_map.mp ht
      rw [List.mem_range] at hy
      exact (hwf col hcol y hy).2.1
  · obtain ⟨block, hblock, rfl⟩ := List.mem_map.mp h
    rw [List.mem_range] at hblock
    obtain ⟨j, hj, rfl⟩ := List.mem_map.mp ht
    rw [List.mem_range] at hj
    exact (hwf block hblock j hj).2.2

lemma get_row_wf (b : Board) (hwf : b.WellFormed) (y : Nat) (hy : y < BOARD_SIZE) :
    ∀ t ∈ b.get_row_for_coord ⟨0, y⟩, t.WellFormed := by
  intro t ht
  obtain ⟨x, hx, rfl⟩ := List.mem_map.mp ht
  rw [List.mem_range] at hx
  exact (hwf y hy x hx).1

lemma get_column_wf (b : Board) (hwf : b.WellFormed) (x : Nat) (hx : x < BOARD_SIZE) :
    ∀ t ∈ b.get_column_for_coord ⟨x, 0⟩, t.WellFormed := by
  intro t ht
  obtain ⟨y, hy, rfl⟩ := List.mem_map.mp ht
  rw [List.mem_range] at hy
  exact (hwf x hx y hy).2.1

lemma block_tiles_wf (b : Board) (hwf : b.WellFormed) (i : Nat) (hi : i < BOARD_SIZE) :
    ∀ t ∈ b.block_tiles i, t.WellFormed := by
  intro t ht
  obtain ⟨j, hj, rfl⟩ := List.mem_map.mp ht
  rw [List.mem_range] at hj
  exact (hwf i hi j hj).2.2

lemma valid_tiles_from_replicate_empty :
    ∀ (n : Nat) (seen : SudokuHashSet),
      Board.valid_tiles_from (List.replicate n Tile.Empty) seen = some true
  | 0, _ => rfl
  | n + 1, seen => valid_tiles_from_replicate_empty n seen

/-- C8 — on a consistent, well-formed board, `verify_board` returns `true`
iff no row, column or block holds two filled tiles with the same digit; and
`is_valid_tile_set` accepts exactly the duplicate-free sequences (empty tiles
never counting), in particular every all-empty sequence. -/
theorem verify_board_iff (b : Board) (hcons : b.Consistent) (hwf : b.WellFormed) :
    (b.verify_board = some true ↔
      (∀ y, y < BOARD_SIZE → TilesNoDupDigit (b.get_row_for_coord ⟨0, y⟩)) ∧
      (∀ x, x < BOARD_SIZE → TilesNoDupDigit (b.get_column_for_coord ⟨x, 0⟩)) ∧
      (∀ i, i < BOARD_SIZE → TilesNoDupDigit (b.block_tiles i))) ∧
    (∀ l : List Tile, (∀ t ∈ l, t.WellFormed) →
      (TilesNoDupDigit l → Board.is_valid_tile_set l = some true) ∧
      (¬ TilesNoDupDigit l → Board.is_valid_tile_set l = some false)) ∧
    (∀ n : Nat, Board.is_valid_tile_set (List.replicate n Tile.Empty) = some true) := by
  refine ⟨?_, ?_, ?_⟩
  · rw [verify_board_eq_check, check_tile_sets_iff b.verify_sets
      (fun ts hts => valid_tiles_from_isSome ts SudokuHashSet.new rfl
        (verify_sets_wf b hwf ts hts))]
    constructor
    · intro h
      refine ⟨fun y hy => ?_, fun x hx => ?_, fun i hi => ?_⟩
      · refine (is_valid_tile_set_iff _ (get_row_wf b hwf y hy)).mp (h _ ?_)
        unfold Board.verify_sets
        exact List.mem_append.mpr (Or.inl (List.mem_append.mpr (Or.inl
          (List.mem_map_of_mem _ (List.mem_range.mpr hy)))))
      · refine (is_valid_tile_set_iff _ (get_column_wf b hwf x hx)).mp (h _ ?_)
        unfold Board.verify_sets
        exact List.mem_append.mpr (Or.inl (List.mem_append.mpr (Or.inr
          (List.mem_map_of_mem _ (List.mem_range.mpr hx)))))
      · refine (is_valid_tile_set_iff _ (block_tiles_wf b hwf i hi)).mp (h _ ?_)
        unfold Board.verify_sets
        exact List.mem_append.mpr (Or.inr
          (List.mem_map_of_mem _ (List.mem_range.mpr hi)))
    · rintro ⟨hrows, hcols, hblocks⟩ ts hts
      unfold Board.verify_sets at hts
      rcases List.mem_append.mp hts with h | h
      · rcases List.mem_append.mp h with h' | h'
        · obtain ⟨row, hrow, rfl⟩ := List.mem_map.mp h'
          rw [List.mem_range] at hrow
          exact (is_valid_tile_set_iff _ (get_row_wf b hwf row hrow)).mpr (hrows row hrow)
        · obtain ⟨col, hcol, rfl⟩ := List.mem_map.mp h'
          rw [List.mem_range] at hcol
          exact (is_valid_tile_set_iff _ (get_column_wf b hwf col hcol)).mpr (hcols col hcol)
      · obtain ⟨block, hblock, rfl⟩ := List.mem_map.mp h
        rw [List.mem_range] at hblock
        exact (is_valid_tile_set_iff _ (block_tiles_wf b hwf block hblock)).mpr
          (hblocks block hblock)
  · intro l hwl
    exact ⟨fun hnd => (is_valid_tile_set_iff l hwl).mpr hnd,
      fun hnd => is_valid_tile_set_false l hwl hnd⟩
  · intro n
    exact valid_tiles_from_replicate_empty n SudokuHashSet.new

/-- C8 witness: the characterisation applied to a concrete consistent,
well-formed board, whose rows, columns and blocks are duplicate-free. -/
theorem verify_board_iff_witness : c5_board.verify_board = some true :=
  (verify_board_iff c5_board (by decide) (by decide)).1.mpr
    ⟨by decide, by decide, by decide⟩

/-! ## C1: boards returned by the filler are complete and valid -/

lemma update_tile_loop_found (coord : Coord) :
    ∀ (nums : List Nat) (b b' : Board) (num : Nat),
      update_tile_loop coord b nums = UpdateOut.found num b' →
      b'.verify_board = some true
  | [], b, b', num, h => by exact UpdateOut.noConfusion h
  | n :: rest, b, b', num, h => by
    rw [show update_tile_loop coord b (n :: rest) =
        (match (b.set_tile_in_place coord (Tile.Filled n)).verify_board with
          | none => UpdateOut.panicked
          | some true => UpdateOut.found n (b.set_tile_in_place coord (Tile.Filled n))
          | some false =>
            update_tile_loop coord (b.set_tile_in_place coord (Tile.Filled n)) rest)
      from rfl] at h
    cases hv : (b.set_tile_in_place coord (Tile.Filled n)).verify_board with
    | none => rw [hv] at h; exact UpdateOut.noConfusion h
    | some bv =>
      cases bv with
      | true =>
        rw [hv] at h
        cases h
        exact hv
      | false =>
        rw [hv] at h
        exact update_tile_loop_found coord rest _ b' num h

lemma update_ok_verify {σ : Type} (rng : Rng σ) (board : Board) (coord : Coord)
    (excluding : SudokuHashSet) (s : σ) (num : Nat) (board' : Board) (s' : σ)
    (h : update_board_with_random_number rng board coord excluding s =
      GenOut.ok (num, board') s') :
    board'.verify_board = some true := by
  unfold update_board_with_random_number at h
  cases he : exclude_nums excluding ((List.range BOARD_SIZE).map (· + 1)) with
  | none => rw [he] at h; exact GenOut.noConfusion h
  | some nums =>
    rw [he] at h
    simp only at h
    cases hu : update_tile_loop coord board (rng.shuffleNums nums s).1 with
    | found n nb =>
      rw [hu] at h
      have h' : GenOut.ok (σ := σ) (n, nb) (rng.shuffleNums nums s).2 =
          GenOut.ok (num, board') s' := h
      have hb : board' = nb := by cases h'; rfl
      subst hb
      exact update_tile_loop_found coord _ board _ n hu
    | exhausted => rw [hu] at h; exact GenOut.noConfusion h
    | panicked => rw [hu] at h; exact GenOut.noConfusion h

/-- The filler invariant: from a locally valid board, every `Ok` result is a
complete, locally valid board (joint statement for `try_fill_board` and its
cell loop, by induction on the fuel). -/
lemma fill_invariant :
    ∀ fuel : Nat,
      (∀ (σ : Type) (rng : Rng σ) (board : Board) (s : σ) (B : Board) (s' : σ),
        board.verify_board = some true →
        try_fill_board rng fuel board s = GenOut.ok B s' →
        B.is_complete = true ∧ B.verify_board = some true) ∧
      (∀ (σ : Type) (rng : Rng σ) (board : Board) (coord : Coord)
          (excluding : SudokuHashSet) (s : σ) (B : Board) (s' : σ),
        fill_cell_loop rng fuel board coord excluding s = GenOut.ok B s' →
        B.is_complete = true ∧ B.verify_board = some true) := by
  intro fuel
  induction fuel with
  | zero =>
    constructor
    · intro σ rng board s B s' _ h
      exact GenOut.noConfusion h
    · intro σ rng board coord excluding s B s' h
      exact GenOut.noConfusion h
  | succ fuel ih =>
    constructor
    · intro σ rng board s B s' hverify h
      rw [show try_fill_board rng (fuel + 1) board s =
          (match first_empty_coord board with
            | some coord => fill_cell_loop rng fuel board coord SudokuHashSet.new s
            | none => if board.is_complete then GenOut.ok board s else GenOut.panic)
        from rfl] at h
      cases hfe : first_empty_coord board with
      | some coord =>
        rw [hfe] at h
        exact ih.2 σ rng board coord SudokuHashSet.new s B s' h
      | none =>
        rw [hfe] at h
        cases hic : board.is_complete with
        | true =>
          rw [hic, if_pos rfl] at h
          cases h
          exact ⟨hic, hverify⟩
        | false =>
          rw [hic] at h
          simp only [Bool.false_eq_true, if_false] at h
          exact GenOut.noConfusion h
    · intro σ rng board coord excluding s B s' h
      rw [show fill_cell_loop rng (fuel + 1) board coord excluding s =
          (match update_board_with_random_number rng board coord excluding s with
            | GenOut.err e s' => GenOut.err e s'
            | GenOut.panic => GenOut.panic
            | GenOut.fuelOut => GenOut.fuelOut
            | GenOut.ok (num, board') s' =>
              match excluding.insert num with
              | none => GenOut.panic
              | some excluding' =>
                match try_fill_board rng fuel board' s' with
                | GenOut.ok b s'' => GenOut.ok b s''
                | GenOut.err BoardGeneratorError.NoNumberAvailable s'' =>
                  fill_cell_loop rng fuel board coord excluding' s''
                | GenOut.err e s'' => GenOut.err e s''
                | GenOut.panic => GenOut.panic
                | GenOut.fuelOut => GenOut.fuelOut)
        from rfl] at h
      cases hu : update_board_with_random_number rng board coord excluding s with
      | ok p s₁ =>
        obtain ⟨num, board'⟩ := p
        rw [hu] at h
        have hverify' := update_ok_verify rng board coord excluding s num board' s₁ hu
        have h2 : (match excluding.insert num with
            | none => GenOut.panic
            | some excluding' =>
              match try_fill_board rng fuel board' s₁ with
              | GenOut.ok b s'' => GenOut.ok b s''
              | GenOut.err BoardGeneratorError.NoNumberAvailable s'' =>
                fill_cell_loop rng fuel board coord excluding' s''
              | GenOut.err e s'' => GenOut.err e s''
              | GenOut.panic => GenOut.panic
              | GenOut.fuelOut => GenOut.fuelOut) = GenOut.ok B s' := h
        cases hins : excluding.insert num with
        | none => rw [hins] at h2; exact GenOut.noConfusion h2
        | some excluding' =>
          rw [hins] at h2
          have h3 : (match try_fill_board rng fuel board' s₁ with
              | GenOut.ok b s'' => GenOut.ok b s''
              | GenOut.err BoardGeneratorError.NoNumberAvailable s'' =>
                fill_cell_loop rng fuel board coord excluding' s''
              | GenOut.err e s'' => GenOut.err e s''
              | GenOut.panic => GenOut.panic
              | GenOut.fuelOut => GenOut.fuelOut) = GenOut.ok B s' := h2
          cases hf : try_fill_board rng fuel board' s₁ with
          | ok b s₂ =>
            rw [hf] at h3
            have h4 : GenOut.ok (σ := σ) b s₂ = GenOut.ok B s' := h3
            have hb : B = b := by cases h4; rfl
            subst hb
            exact ih.1 σ rng board' s₁ _ s₂ hverify' hf
          | err e s₂ =>
            rw [hf] at h3
            cases e with
            | NoNumberAvailable =>
              exact ih.2 σ rng board coord excluding' s₂ B s' h3
            | MultipleSolutionsAvailable => exact GenOut.noConfusion h3
            | NoDeletionsAvailable b => exact GenOut.noConfusion h3
          | panic => rw [hf] at h3; exact GenOut.noConfusion h3
          | fuelOut => rw [hf] at h3; exact GenOut.noConfusion h3
      | err e s₁ => rw [hu] at h; exact GenOut.noConfusion h
      | panic => rw [hu] at h; exact GenOut.noConfusion h
      | fuelOut => rw [hu] at h; exact GenOut.noConfusion h

/-- C1 — every board the filler returns `Ok` from the empty default board,
under any random source and any fuel, is complete and passes `verify_board`. -/
theorem try_fill_board_complete_and_valid (σ : Type) (rng : Rng σ) (fuel : Nat)
    (s : σ) (B : Board) (s' : σ)
    (h : try_fill_board rng fuel Board.default s = GenOut.ok B s') :
    B.is_complete = true ∧ B.verify_board = some true :=
  (fill_invariant fuel).1 σ rng Board.default s B s' (by rfl) h

/-- C1 witness: a concrete scripted run of the filler from the empty board
succeeds, so its result is complete and valid. -/
theorem try_fill_board_complete_and_valid_witness :
    fill_demo_board.is_complete = true ∧ fill_demo_board.verify_board = some true :=
  try_fill_board_complete_and_valid ScriptState script_rng 200 (fill_script, [])
    fill_demo_board fill_demo_state (by rfl)

/-! ## C2: the clue board is a subset-assignment of the solved board -/

lemma subset_assign_refl (b : Board) : b.SubsetAssign b :=
  fun _ _ _ _ _ h => h

lemma subset_assign_trans {a b c : Board} (h1 : a.SubsetAssign b) (h2 : b.SubsetAssign c) :
    a.SubsetAssign c :=
  fun x hx y hy d h => h2 x hx y hy d (h1 x hx y hy d h)

lemma subset_assign_set_empty (b : Board) (c : Coord) :
    (b.set_tile c Tile.Empty).SubsetAssign b := by
  intro x hx y hy d h
  rw [get_tile_set_tile] at h
  by_cases hc : (Coord.mk x y).y = c.y ∧ (Coord.mk x y).x = c.x
  · rw [if_pos hc] at h
    exact Tile.noConfusion h
  · rwa [if_neg hc] at h

/-- The scan loop either removes exactly one cell (setting it to `Empty`) or
leaves the board unchanged. -/
lemma carve_scan_board {σ : Type} (rng : Rng σ) (ff : Nat) :
    ∀ (cands : List Coord) (board : Board) (u : List Coord) (s : σ)
      (b' : Board) (u' : List Coord) (flag : Bool) (s' : σ),
      carve_scan rng ff cands board u s = GenOut.ok (b', u', flag) s' →
      b' = board ∨ ∃ c, b' = board.set_tile c Tile.Empty
  | [], board, u, s, b', u', flag, s', h => by
    have h' : GenOut.ok (σ := σ) (board, u, false) s = GenOut.ok (b', u', flag) s' := h
    have hb : b' = board := by cases h'; rfl
    exact Or.inl hb
  | c :: rest, board, u, s, b', u', flag, s', h => by
    have h1 : (match board.get_tile c with
        | Tile.Empty => GenOut.panic
        | Tile.Filled original_value =>
          match check_alternative_digits rng ff board c
              (alt_digits original_value) false u s with
          | GenOut.ok (has_options, u₁) s₁ =>
            if has_options then carve_scan rng ff rest board u₁ s₁
            else GenOut.ok (board.set_tile c Tile.Empty, u₁, true) s₁
          | GenOut.err e s₁ => GenOut.err e s₁
          | GenOut.panic => GenOut.panic
          | GenOut.fuelOut => GenOut.fuelOut) = GenOut.ok (b', u', flag) s' := h
    cases hg : board.get_tile c with
    | Empty => rw [hg] at h1; exact GenOut.noConfusion h1
    | Filled orig =>
      rw [hg] at h1
      have h1' : (match check_alternative_digits rng ff board c
            (alt_digits orig) false u s with
          | GenOut.ok (has_options, u₁) s₁ =>
            if has_options then carve_scan rng ff rest board u₁ s₁
            else GenOut.ok (board.set_tile c Tile.Empty, u₁, true) s₁
          | GenOut.err e s₁ => GenOut.err e s₁
          | GenOut.panic => GenOut.panic
          | GenOut.fuelOut => GenOut.fuelOut) = GenOut.ok (b', u', flag) s' := h1
      cases hchk : check_alternative_digits rng ff board c (alt_digits orig) false u s with
      | ok p s₁ =>
        obtain ⟨ho, u₁⟩ := p
        rw [hchk] at h1'
        have h2 : (if ho then carve_scan rng ff rest board u₁ s₁
            else GenOut.ok (board.set_tile c Tile.Empty, u₁, true) s₁) =
            GenOut.ok (b', u', flag) s' := h1'
        cases ho with
        | true =>
          rw [if_pos rfl] at h2
          exact carve_scan_board rng ff rest board u₁ s₁ b' u' flag s' h2
        | false =>
          rw [if_neg (by simp)] at h2
          have h3 : GenOut.ok (σ := σ) (board.set_tile c Tile.Empty, u₁, true) s₁ =
              GenOut.ok (b', u', flag) s' := h2
          have hb : b' = board.set_tile c Tile.Empty := by cases h3; rfl
          exact Or.inr ⟨c, hb⟩
      | err e s₁ => rw [hchk] at h1'; exact GenOut.noConfusion h1'
      | panic => rw [hchk] at h1'; exact GenOut.noConfusion h1'
      | fuelOut => rw [hchk] at h1'; exact GenOut.noConfusion h1'

/-- Every successful carve returns a subset-assignment of its input board:
cells are only ever emptied. -/
lemma try_empty_board_subset {σ : Type} (rng : Rng σ) (ff : Nat) :
    ∀ (fuel : Nat) (board : Board) (desired : Nat) (u : List Coord) (s : σ)
      (b' : Board) (s' : σ),
      try_empty_board rng ff fuel board desired u s = GenOut.ok b' s' →
      b'.SubsetAssign board
  | 0, board, desired, u, s, b', s', h => by exact GenOut.noConfusion h
  | fuel + 1, board, desired, u, s, b', s', h => by
    have h1 : (match rng.shuffleCoords ((board.get_filled_tile_coords).filter
          (fun coord => !(u.contains coord))) s with
        | (shuffled_coords, s₀) =>
          match carve_scan rng ff shuffled_coords board u s₀ with
          | GenOut.ok (board', u₁, has_replaced) s₁ =>
            if !has_replaced then
              GenOut.err (BoardGeneratorError.NoDeletionsAvailable board') s₁
            else if board'.get_filled_tile_coords.length = desired then
              GenOut.ok board' s₁
            else
              try_empty_board rng ff fuel board' desired u₁ s₁
          | GenOut.err e s₁ => GenOut.err e s₁
          | GenOut.panic => GenOut.panic
          | GenOut.fuelOut => GenOut.fuelOut) = GenOut.ok b' s' := h
    cases hsh : rng.shuffleCoords ((board.get_filled_tile_coords).filter
        (fun coord => !(u.contains coord))) s with
    | mk shuffled_coords s₀ =>
      rw [hsh] at h1
      have h1' : (match carve_scan rng ff shuffled_coords board u s₀ with
          | GenOut.ok (board', u₁, has_replaced) s₁ =>
            if !has_replaced then
              GenOut.err (BoardGeneratorError.NoDeletionsAvailable board') s₁
            else if board'.get_filled_tile_coords.length = desired then
              GenOut.ok board' s₁
            else
              try_empty_board rng ff fuel board' desired u₁ s₁
          | GenOut.err e s₁ => GenOut.err e s₁
          | GenOut.panic => GenOut.panic
          | GenOut.fuelOut => GenOut.fuelOut) = GenOut.ok b' s' := h1
      cases hscan : carve_scan rng ff shuffled_coords board u s₀ with
      | ok p s₁ =>
        obtain ⟨board', u₁, has_replaced⟩ := p
        rw [hscan] at h1'
        have hsub : board'.SubsetAssign board := by
          rcases carve_scan_board rng ff shuffled_coords board u s₀ board' u₁
              has_replaced s₁ hscan with hb | ⟨c, hb⟩
          · rw [hb]; exact subset_assign_refl board
          · rw [hb]; exact subset_assign_set_empty board c
        have h2 : (if !has_replaced then
              GenOut.err (BoardGeneratorError.NoDeletionsAvailable board') s₁
            else if board'.get_filled_tile_coords.length = desired then
              GenOut.ok board' s₁
            else
              try_empty_board rng ff fuel board' desired u₁ s₁) = GenOut.ok b' s' := h1'
        cases has_replaced with
        | false =>
          exact GenOut.noConfusion (show GenOut.err (σ := σ)
            (BoardGeneratorError.NoDeletionsAvailable board') s₁ = GenOut.ok b' s' from h2)
        | true =>
          have h2 : (if board'.get_filled_tile_coords.length = desired then
                GenOut.ok board' s₁
              else
                try_empty_board rng ff fuel board' desired u₁ s₁) = GenOut.ok b' s' := h2
          by_cases hlen : board'.get_filled_tile_coords.length = desired
          · rw [if_pos hlen] at h2
            have h3 : GenOut.ok (σ := σ) board' s₁ = GenOut.ok b' s' := h2
            have hb : b' = board' := by cases h3; rfl
            rw [hb]
            exact hsub
          · rw [if_neg hlen] at h2
            exact subset_assign_trans
              (try_empty_board_subset rng ff fuel board' desired u₁ s₁ b' s' h2) hsub
      | err e s₁ => rw [hscan] at h1'; exact GenOut.noConfusion h1'
      | panic => rw [hscan] at h1'; exact GenOut.noConfusion h1'
      | fuelOut => rw [hscan] at h1'; exact GenOut.noConfusion h1'

lemma new_board_subset {σ : Type} (rng : Rng σ) (ff cf desired : Nat) (s : σ)
    (solved emptied : Board) (s' : σ)
    (h : new_board rng ff cf desired s = GenOut.ok (solved, emptied) s') :
    emptied.SubsetAssign solved := by
  unfold new_board at h
  cases hfill : try_fill_board rng ff Board.default s with
  | ok solved₀ s₁ =>
    rw [hfill] at h
    have h1 : (match try_empty_board rng ff cf solved₀ desired [] s₁ with
        | GenOut.ok emptied_board s'' => GenOut.ok (solved₀, emptied_board) s''
        | GenOut.err e s'' => GenOut.err e s''
        | GenOut.panic => GenOut.panic
        | GenOut.fuelOut => GenOut.fuelOut) = GenOut.ok (solved, emptied) s' := h
    cases hempty : try_empty_board rng ff cf solved₀ desired [] s₁ with
    | ok emptied₀ s₂ =>
      rw [hempty] at h1
      have h' : GenOut.ok (σ := σ) (solved₀, emptied₀) s₂ = GenOut.ok (solved, emptied) s' := h1
      have hs : solved = solved₀ ∧ emptied = emptied₀ := by cases h'; exact ⟨rfl, rfl⟩
      rw [hs.1, hs.2]
      exact try_empty_board_subset rng ff cf solved₀ desired [] s₁ emptied₀ s₂ hempty
    | err e s₂ => rw [hempty] at h1; exact GenOut.noConfusion h1
    | panic => rw [hempty] at h1; exact GenOut.noConfusion h1
    | fuelOut => rw [hempty] at h1; exact GenOut.noConfusion h1
  | err e s₁ => rw [hfill] at h; exact GenOut.noConfusion h
  | panic => rw [hfill] at h; exact GenOut.noConfusion h
  | fuelOut => rw [hfill] at h; exact GenOut.noConfusion h

lemma new_random_subset {σ : Type} (rng : Rng σ) (ff cf : Nat) :
    ∀ (tries desired : Nat) (s : σ) (g : Game) (s' : σ),
      new_random rng ff cf tries desired s = GameOut.ok g s' →
      g.current.SubsetAssign g.solved
  | 0, desired, s, g, s', h => by exact GameOut.noConfusion h
  | tries + 1, desired, s, g, s', h => by
    have h1 : (match new_board rng ff cf desired s with
        | GenOut.ok (solved, emptied) s₁ => GameOut.ok ⟨[], emptied, solved⟩ s₁
        | GenOut.err (BoardGeneratorError.NoDeletionsAvailable _) s₁ =>
          new_random rng ff cf tries desired s₁
        | GenOut.err e s₁ => GameOut.err (GameError.BoardGeneratorError e) s₁
        | GenOut.panic => GameOut.panic
        | GenOut.fuelOut => GameOut.fuelOut) = GameOut.ok g s' := h
    cases hnb : new_board rng ff cf desired s with
    | ok p s₁ =>
      obtain ⟨solved, emptied⟩ := p
      rw [hnb] at h1
      have h2 : GameOut.ok (σ := σ) ⟨[], emptied, solved⟩ s₁ = GameOut.ok g s' := h1
      have hg : g = ⟨[], emptied, solved⟩ := by cases h2; rfl
      rw [hg]
      exact new_board_subset rng ff cf desired s solved emptied s₁ hnb
    | err e s₁ =>
      rw [hnb] at h1
      cases e with
      | NoDeletionsAvailable b =>
        exact new_random_subset rng ff cf tries desired s₁ g s' h1
      | NoNumberAvailable => exact GameOut.noConfusion h1
      | MultipleSolutionsAvailable => exact GameOut.noConfusion h1
    | panic => rw [hnb] at h1; exact GameOut.noConfusion h1
    | fuelOut => rw [hnb] at h1; exact GameOut.noConfusion h1

/-- C2 — every `(solved, clue)` pair successfully produced by `new_board`
(and hence every game produced by `Game::new_random`) has the clue board as a
subset-assignment of the solved board: carving only empties cells, never
changes a digit. -/
theorem new_board_clue_subset_of_solved (σ : Type) (rng : Rng σ) (ff cf : Nat) :
    (∀ (desired : Nat) (s : σ) (solved emptied : Board) (s' : σ),
      new_board rng ff cf desired s = GenOut.ok (solved, emptied) s' →
      emptied.SubsetAssign solved) ∧
    (∀ (tries desired : Nat) (s : σ) (g : Game) (s' : σ),
      new_random rng ff cf tries desired s = GameOut.ok g s' →
      g.current.SubsetAssign g.solved) :=
  ⟨fun desired s solved emptied s' h => new_board_subset rng ff cf desired s solved emptied s' h,
   fun tries desired s g s' h => new_random_subset rng ff cf tries desired s g s' h⟩

/-- A scripted full generation: fill the canonical grid, then carve exactly
the cell (0, 0) to reach 80 clues. -/
def gen_demo : GenOut ScriptState (Board × Board) :=
  new_board script_rng 200 5 80 (fill_script, [[⟨0, 0⟩]])

def gen_demo_solved : Board :=
  match gen_demo with
  | GenOut.ok (b, _) _ => b
  | _ => Board.default

def gen_demo_emptied : Board :=
  match gen_demo with
  | GenOut.ok (_, b) _ => b
  | _ => Board.default

def gen_demo_state : ScriptState :=
  match gen_demo with
  | GenOut.ok _ s => s
  | _ => ([], [])

/-- C2 witness: in the concrete scripted generation, the clue cell (0, 1)
holds digit 4, so the solved board holds 4 there as well. -/
theorem new_board_clue_subset_of_solved_witness :
    gen_demo_solved.get_tile ⟨0, 1⟩ = Tile.Filled 4 :=
  (new_board_clue_subset_of_solved ScriptState script_rng 200 5).1 80
    (fill_script, [[⟨0, 0⟩]]) gen_demo_solved gen_demo_emptied gen_demo_state
    (by rfl) 0 (by decide) 1 (by decide) 4 (by rfl)

/-! ## C6: the retry loop of `Game::new_random` -/

/-- An attempt outcome that `Game::new_random` retries. -/
def IsNoDeletions {σ : Type} (o : GenOut σ (Board × Board)) : Prop :=
  ∃ b s', o = GenOut.err (BoardGeneratorError.NoDeletionsAvailable b) s'

/-- The random-source state at the start of attempt `k`, assuming every
earlier attempt failed retryably. -/
def retry_state {σ : Type} (rng : Rng σ) (ff cf desired : Nat) : Nat → σ → σ
  | 0, s => s
  | k + 1, s =>
    match new_board rng ff cf desired s with
    | GenOut.err (BoardGeneratorError.NoDeletionsAvailable _) s' =>
      retry_state rng ff cf desired k s'
    | _ => s

lemma retry_state_step {σ : Type} (rng : Rng σ) (ff cf desired : Nat) (k : Nat)
    (s s₁ : σ) (b : Board)
    (h0 : new_board rng ff cf desired s =
      GenOut.err (BoardGeneratorError.NoDeletionsAvailable b) s₁) :
    retry_state rng ff cf desired (k + 1) s = retry_state rng ff cf desired k s₁ := by
  have E : retry_state rng ff cf desired (k + 1) s =
      (match new_board rng ff cf desired s with
        | GenOut.err (BoardGeneratorError.NoDeletionsAvailable _) s' =>
          retry_state rng ff cf desired k s'
        | _ => s) := rfl
  rw [E, h0]

/-- C6 — `Game::new_random` runs at most `max_tries` attempts: while attempts
fail with `NoDeletionsAvailable` it retries; the first attempt that returns a
board pair stops the loop with that game; the first attempt failing with any
other generation error stops the loop with that error wrapped; and when all
`max_tries` attempts fail retryably the result is `TriesExceeded`. -/
theorem new_random_retry_semantics (σ : Type) (rng : Rng σ) (ff cf desired : Nat)
    (n : Nat) (s : σ) :
    ((∀ i, i < n →
        IsNoDeletions (new_board rng ff cf desired (retry_state rng ff cf desired i s))) →
      new_random rng ff cf n desired s =
        GameOut.err GameError.TriesExceeded (retry_state rng ff cf desired n s)) ∧
    (∀ k, k < n →
      (∀ i, i < k →
        IsNoDeletions (new_board rng ff cf desired (retry_state rng ff cf desired i s))) →
      (∀ solved emptied s',
        new_board rng ff cf desired (retry_state rng ff cf desired k s) =
          GenOut.ok (solved, emptied) s' →
        new_random rng ff cf n desired s = GameOut.ok ⟨[], emptied, solved⟩ s') ∧
      (∀ e s', (∀ b, e ≠ BoardGeneratorError.NoDeletionsAvailable b) →
        new_board rng ff cf desired (retry_state rng ff cf desired k s) =
          GenOut.err e s' →
        new_random rng ff cf n desired s =
          GameOut.err (GameError.BoardGeneratorError e) s')) := by
  induction n generalizing s with
  | zero =>
    refine ⟨fun _ => rfl, fun k hk => absurd hk (by omega)⟩
  | succ n ihn =>
    have E : new_random rng ff cf (n + 1) desired s =
        (match new_board rng ff cf desired s with
          | GenOut.ok (solved, emptied) s₁ => GameOut.ok ⟨[], emptied, solved⟩ s₁
          | GenOut.err (BoardGeneratorError.NoDeletionsAvailable _) s₁ =>
            new_random rng ff cf n desired s₁
          | GenOut.err e s₁ => GameOut.err (GameError.BoardGeneratorError e) s₁
          | GenOut.panic => GameOut.panic
          | GenOut.fuelOut => GameOut.fuelOut) := rfl
    constructor
    · intro hall
      obtain ⟨b, s₁, h0⟩ := hall 0 (by omega)
      have h0' : new_board rng ff cf desired s =
          GenOut.err (BoardGeneratorError.NoDeletionsAvailable b) s₁ := h0
      rw [E, h0']
      have hshift : ∀ i, i < n →
          IsNoDeletions (new_board rng ff cf desired (retry_state rng ff cf desired i s₁)) := by
        intro i hi
        have := hall (i + 1) (by omega)
        rwa [retry_state_step rng ff cf desired i s s₁ b h0'] at this
      show new_random rng ff cf n desired s₁ =
        GameOut.err GameError.TriesExceeded (retry_state rng ff cf desired (n + 1) s)
      rw [(ihn s₁).1 hshift, retry_state_step rng ff cf desired n s s₁ b h0']
    · intro k hk hprev
      cases k with
      | zero =>
        constructor
        · intro solved emptied s' hok
          have hok' : new_board rng ff cf desired s = GenOut.ok (solved, emptied) s' := hok
          rw [E, hok']
        · intro e s' hne herr
          have herr' : new_board rng ff cf desired s = GenOut.err e s' := herr
          rw [E, herr']
          cases e with
          | NoDeletionsAvailable b => exact absurd rfl (hne b)
          | NoNumberAvailable => rfl
          | MultipleSolutionsAvailable => rfl
      | succ k =>
        obtain ⟨b, s₁, h0⟩ := hprev 0 (by omega)
        have h0' : new_board rng ff cf desired s =
            GenOut.err (BoardGeneratorError.NoDeletionsAvailable b) s₁ := h0
        have hshift : ∀ i, i < k →
            IsNoDeletions (new_board rng ff cf desired (retry_state rng ff cf desired i s₁)) := by
          intro i hi
          have := hprev (i + 1) (by omega)
          rwa [retry_state_step rng ff cf desired i s s₁ b h0'] at this
        have hstep := retry_state_step rng ff cf desired k s s₁ b h0'
        constructor
        · intro solved emptied s' hok
          rw [hstep] at hok
          rw [E, h0']
          show new_random rng ff cf n desired s₁ =
            GameOut.ok ⟨[], emptied, solved⟩ s'
          exact ((ihn s₁).2 k (by omega) hshift).1 solved emptied s' hok
        · intro e s' hne herr
          rw [hstep] at herr
          rw [E, h0']
          show new_random rng ff cf n desired s₁ =
            GameOut.err (GameError.BoardGeneratorError e) s'
          exact ((ihn s₁).2 k (by omega) hshift).2 e s' hne herr

/-- C6 witness: with zero tries allowed, the loop immediately reports
`TriesExceeded`. -/
theorem new_random_retry_semantics_witness :
    new_random script_rng 1 1 0 25 ([], []) =
      GameOut.err GameError.TriesExceeded (retry_state script_rng 1 1 25 0 ([], [])) :=
  (new_random_retry_semantics ScriptState script_rng 1 1 25 0 ([], [])).1
    (fun i hi => absurd hi (by omega))

/-! ## C4: generation with a target of 81 clues can never succeed -/

lemma filter_length_mono {α : Type} (p q : α → Bool) :
    ∀ l : List α, (∀ a ∈ l, q a = true → p a = true) →
      (l.filter q).length ≤ (l.filter p).length
  | [], _ => Nat.le_refl _
  | a :: l, h => by
    rw [List.filter_cons, List.filter_cons]
    have hrest := filter_length_mono p q l (fun a ha => h a (List.mem_cons_of_mem _ ha))
    cases hq : q a with
    | true =>
      rw [h a (List.mem_cons_self _ _) hq]
      simpa using Nat.succ_le_succ hrest
    | false =>
      cases hp : p a with
      | true => simpa using Nat.le_succ_of_le hrest
      | false => simpa using hrest

lemma filter_length_lt {α : Type} (p q : α → Bool) :
    ∀ l : List α, (∀ a ∈ l, q a = true → p a = true) →
      ∀ c, c ∈ l → p c = true → q c = false →
      (l.filter q).length < (l.filter p).length
  | [], _, c, hc, _, _ => absurd hc (List.not_mem_nil c)
  | a :: l, himp, c, hc, hpc, hqc => by
    have himp' : ∀ a ∈ l, q a = true → p a = true :=
      fun a ha => himp a (List.mem_cons_of_mem _ ha)
    rcases List.mem_cons.mp hc with rfl | hc'
    · rw [List.filter_cons, List.filter_cons, hqc, hpc]
      simpa using Nat.lt_succ_of_le (filter_length_mono p q l himp')
    · rw [List.filter_cons, List.filter_cons]
      have hrest := filter_length_lt p q l himp' c hc' hpc hqc
      cases hq : q a with
      | true =>
        rw [himp a (List.mem_cons_self _ _) hq]
        simpa using Nat.succ_lt_succ hrest
      | false =>
        cases hp : p a with
        | true => simpa using Nat.lt_succ_of_lt hrest
        | false => simpa using hrest

lemma mem_all_coords (c : Coord) : c ∈ Board.all_coords ↔ c.x < 9 ∧ c.y < 9 := by
  unfold Board.all_coords
  constructor
  · intro h
    obtain ⟨x, hx, h2⟩ := List.mem_flatMap.mp h
    obtain ⟨y, hy, rfl⟩ := List.mem_map.mp h2
    rw [List.mem_range] at hx hy
    exact ⟨hx, hy⟩
  · rintro ⟨hx, hy⟩
    refine List.mem_flatMap.mpr ⟨c.x, List.mem_range.mpr hx, ?_⟩
    exact List.mem_map.mpr ⟨c.y, List.mem_range.mpr hy, rfl⟩

lemma filled_coords_le_81 (b : Board) : b.get_filled_tile_coords.length ≤ 81 := by
  unfold Board.get_filled_tile_coords
  calc (Board.all_coords.filter b.tile_filled).length
      ≤ Board.all_coords.length := List.length_filter_le _ _
    _ = 81 := by rfl

lemma filled_coords_lt_of_remove (b : Board) (c : Coord) (d : Nat)
    (hx : c.x < 9) (hy : c.y < 9) (hc : b.get_tile c = Tile.Filled d) :
    (b.set_tile c Tile.Empty).get_filled_tile_coords.length <
      b.get_filled_tile_coords.length := by
  unfold Board.get_filled_tile_coords
  apply filter_length_lt _ _ Board.all_coords
  · intro a _ hq
    unfold Board.tile_filled at hq ⊢
    rw [get_tile_set_tile] at hq
    by_cases hac : a.y = c.y ∧ a.x = c.x
    · rw [if_pos hac] at hq
      exact absurd hq (by simp)
    · rwa [if_neg hac] at hq
  · exact (mem_all_coords c).mpr ⟨hx, hy⟩
  · unfold Board.tile_filled
    rw [hc]
  · unfold Board.tile_filled
    rw [get_tile_set_tile, if_pos ⟨rfl, rfl⟩]

lemma empty_outside_default : Board.default.EmptyOutside :=
  fun _ _ _ => rfl

lemma empty_outside_set_in_range (b : Board) (c : Coord) (v : Tile)
    (hx : c.x < 9) (hy : c.y < 9) (h : b.EmptyOutside) :
    (b.set_tile_in_place c v).EmptyOutside := by
  intro x y hxy
  show (if y = c.y ∧ x = c.x then v else b.rows y x) = Tile.Empty
  have hne : ¬(y = c.y ∧ x = c.x) := by
    rintro ⟨rfl, rfl⟩
    rcases hxy with h9 | h9
    · exact absurd (show (9 : Nat) ≤ c.x from h9) (by omega)
    · exact absurd (show (9 : Nat) ≤ c.y from h9) (by omega)
  rw [if_neg hne]
  exact h x y hxy

lemma empty_outside_set_empty (b : Board) (c : Coord) (h : b.EmptyOutside) :
    (b.set_tile c Tile.Empty).EmptyOutside := by
  intro x y hxy
  show (if y = c.y ∧ x = c.x then Tile.Empty else b.rows y x) = Tile.Empty
  by_cases hc : y = c.y ∧ x = c.x
  · rw [if_pos hc]
  · rw [if_neg hc]
    exact h x y hxy

lemma first_empty_coord_in_range (b : Board) (coord : Coord)
    (h : first_empty_coord b = some coord) : coord.x < 9 ∧ coord.y < 9 := by
  unfold first_empty_coord at h
  obtain ⟨x, hx, h2⟩ := List.exists_of_findSome?_eq_some h
  obtain ⟨y, hy, h3⟩ := List.exists_of_findSome?_eq_some h2
  rw [List.mem_range] at hx hy
  cases hg : b.get_tile ⟨x, y⟩ with
  | Empty =>
    rw [hg] at h3
    have h4 : some (Coord.mk x y) = some coord := h3
    cases h4
    exact ⟨hx, hy⟩
  | Filled d =>
    rw [hg] at h3
    exact Option.noConfusion h3

lemma update_tile_loop_empty_outside (coord : Coord) (hx : coord.x < 9) (hy : coord.y < 9) :
    ∀ (nums : List Nat) (b b' : Board) (num : Nat),
      b.EmptyOutside → update_tile_loop coord b nums = UpdateOut.found num b' →
      b'.EmptyOutside
  | [], b, b', num, _, h => by exact UpdateOut.noConfusion h
  | n :: rest, b, b', num, hE, h => by
    have hE' : (b.set_tile_in_place coord (Tile.Filled n)).EmptyOutside :=
      empty_outside_set_in_range b coord (Tile.Filled n) hx hy hE
    have h1 : (match (b.set_tile_in_place coord (Tile.Filled n)).verify_board with
        | none => UpdateOut.panicked
        | some true => UpdateOut.found n (b.set_tile_in_place coord (Tile.Filled n))
        | some false =>
          update_tile_loop coord (b.set_tile_in_place coord (Tile.Filled n)) rest) =
        UpdateOut.found num b' := h
    cases hv : (b.set_tile_in_place coord (Tile.Filled n)).verify_board with
    | none => rw [hv] at h1; exact UpdateOut.noConfusion h1
    | some bv =>
      cases bv with
      | true =>
        rw [hv] at h1
        have hb : b' = b.set_tile_in_place coord (Tile.Filled n) := by cases h1; rfl
        rw [hb]
        exact hE'
      | false =>
        rw [hv] at h1
        exact update_tile_loop_empty_outside coord hx hy rest _ b' num hE' h1

lemma update_ok_empty_outside {σ : Type} (rng : Rng σ) (board : Board) (coord : Coord)
    (hx : coord.x < 9) (hy : coord.y < 9) (excluding : SudokuHashSet) (s : σ)
    (num : Nat) (board' : Board) (s' : σ) (hE : board.EmptyOutside)
    (h : update_board_with_random_number rng board coord excluding s =
      GenOut.ok (num, board') s') :
    board'.EmptyOutside := by
  unfold update_board_with_random_number at h
  cases he : exclude_nums excluding ((List.range BOARD_SIZE).map (· + 1)) with
  | none => rw [he] at h; exact GenOut.noConfusion h
  | some nums =>
    rw [he] at h
    simp only at h
    cases hu : update_tile_loop coord board (rng.shuffleNums nums s).1 with
    | found n nb =>
      rw [hu] at h
      have h' : GenOut.ok (σ := σ) (n, nb) (rng.shuffleNums nums s).2 =
          GenOut.ok (num, board') s' := h
      have hb : board' = nb := by cases h'; rfl
      rw [hb]
      exact update_tile_loop_empty_outside coord hx hy _ board nb n hE hu
    | exhausted => rw [hu] at h; exact GenOut.noConfusion h
    | panicked => rw [hu] at h; exact GenOut.noConfusion h

/-- The filler only writes inside the 9×9 grid: boards it returns are empty
outside it whenever the input was. -/
lemma fill_empty_outside :
    ∀ fuel : Nat,
      (∀ (σ : Type) (rng : Rng σ) (board : Board) (s : σ) (B : Board) (s' : σ),
        board.EmptyOutside → try_fill_board rng fuel board s = GenOut.ok B s' →
        B.EmptyOutside) ∧
      (∀ (σ : Type) (rng : Rng σ) (board : Board) (coord : Coord),
        coord.x < 9 → coord.y < 9 →
        ∀ (excluding : SudokuHashSet) (s : σ) (B : Board) (s' : σ),
        board.EmptyOutside → fill_cell_loop rng fuel board coord excluding s = GenOut.ok B s' →
        B.EmptyOutside) := by
  intro fuel
  induction fuel with
  | zero =>
    constructor
    · intro σ rng board s B s' _ h
      exact GenOut.noConfusion h
    · intro σ rng board coord _ _ excluding s B s' _ h
      exact GenOut.noConfusion h
  | succ fuel ih =>
    constructor
    · intro σ rng board s B s' hE h
      rw [show try_fill_board rng (fuel + 1) board s =
          (match first_empty_coord board with
            | some coord => fill_cell_loop rng fuel board coord SudokuHashSet.new s
            | none => if board.is_complete then GenOut.ok board s else GenOut.panic)
        from rfl] at h
      cases hfe : first_empty_coord board with
      | some coord =>
        rw [hfe] at h
        obtain ⟨hcx, hcy⟩ := first_empty_coord_in_range board coord hfe
        exact ih.2 σ rng board coord hcx hcy SudokuHashSet.new s B s' hE h
      | none =>
        rw [hfe] at h
        cases hic : board.is_complete with
        | true =>
          rw [hic, if_pos rfl] at h
          have h' : GenOut.ok (σ := σ) board s = GenOut.ok B s' := h
          have hb : B = board := by cases h'; rfl
          rw [hb]
          exact hE
        | false =>
          rw [hic] at h
          simp only [Bool.false_eq_true, if_false] at h
          exact GenOut.noConfusion h
    · intro σ rng board coord hcx hcy excluding s B s' hE h
      rw [show fill_cell_loop rng (fuel + 1) board coord excluding s =
          (match update_board_with_random_number rng board coord excluding s with
            | GenOut.err e s' => GenOut.err e s'
            | GenOut.panic => GenOut.panic
            | GenOut.fuelOut => GenOut.fuelOut
            | GenOut.ok (num, board') s' =>
              match excluding.insert num with
              | none => GenOut.panic
              | some excluding' =>
                match try_fill_board rng fuel board' s' with
                | GenOut.ok b s'' => GenOut.ok b s''
                | GenOut.err BoardGeneratorError.NoNumberAvailable s'' =>
                  fill_cell_loop rng fuel board coord excluding' s''
                | GenOut.err e s'' => GenOut.err e s''
                | GenOut.panic => GenOut.panic
                | GenOut.fuelOut => GenOut.fuelOut)
        from rfl] at h
      cases hu : update_board_with_random_number rng board coord excluding s with
      | ok p s₁ =>
        obtain ⟨num, board'⟩ := p
        rw [hu] at h
        have hE' := update_ok_empty_outside rng board coord hcx hcy excluding s
          num board' s₁ hE hu
        have h2 : (match excluding.insert num with
            | none => GenOut.panic
            | some excluding' =>
              match try_fill_board rng fuel board' s₁ with
              | GenOut.ok b s'' => GenOut.ok b s''
              | GenOut.err BoardGeneratorError.NoNumberAvailable s'' =>
                fill_cell_loop rng fuel board coord excluding' s''
              | GenOut.err e s'' => GenOut.err e s''
              | GenOut.panic => GenOut.panic
              | GenOut.fuelOut => GenOut.fuelOut) = GenOut.ok B s' := h
        cases hins : excluding.insert num with
        | none => rw [hins] at h2; exact GenOut.noConfusion h2
        | some excluding' =>
          rw [hins] at h2
          have h3 : (match try_fill_board rng fuel board' s₁ with
              | GenOut.ok b s'' => GenOut.ok b s''
              | GenOut.err BoardGeneratorError.NoNumberAvailable s'' =>
                fill_cell_loop rng fuel board coord excluding' s''
              | GenOut.err e s'' => GenOut.err e s''
              | GenOut.panic => GenOut.panic
              | GenOut.fuelOut => GenOut.fuelOut) = GenOut.ok B s' := h2
          cases hf : try_fill_board rng fuel board' s₁ with
          | ok b s₂ =>
            rw [hf] at h3
            have h4 : GenOut.ok (σ := σ) b s₂ = GenOut.ok B s' := h3
            have hb : B = b := by cases h4; rfl
            rw [hb]
            exact ih.1 σ rng board' s₁ b s₂ hE' hf
          | err e s₂ =>
            rw [hf] at h3
            cases e with
            | NoNumberAvailable =>
              exact ih.2 σ rng board coord hcx hcy excluding' s₂ B s' hE h3
            | MultipleSolutionsAvailable => exact GenOut.noConfusion h3
            | NoDeletionsAvailable b => exact GenOut.noConfusion h3
          | panic => rw [hf] at h3; exact GenOut.noConfusion h3
          | fuelOut => rw [hf] at h3; exact GenOut.noConfusion h3
      | err e s₁ => rw [hu] at h; exact GenOut.noConfusion h
      | panic => rw [hu] at h; exact GenOut.noConfusion h
      | fuelOut => rw [hu] at h; exact GenOut.noConfusion h

/-- A scan that reports `has_replaced_a_tile` removed exactly one filled
cell. -/
lemma carve_scan_removed {σ : Type} (rng : Rng σ) (ff : Nat) :
    ∀ (cands : List Coord) (board : Board) (u : List Coord) (s : σ)
      (b' : Board) (u' : List Coord) (s' : σ),
      carve_scan rng ff cands board u s = GenOut.ok (b', u', true) s' →
      ∃ c d, board.get_tile c = Tile.Filled d ∧ b' = board.set_tile c Tile.Empty
  | [], board, u, s, b', u', s', h => by
    have h' : GenOut.ok (σ := σ) (board, u, false) s = GenOut.ok (b', u', true) s' := h
    cases h'
  | c :: rest, board, u, s, b', u', s', h => by
    have h1 : (match board.get_tile c with
        | Tile.Empty => GenOut.panic
        | Tile.Filled original_value =>
          match check_alternative_digits rng ff board c
              (alt_digits original_value) false u s with
          | GenOut.ok (has_options, u₁) s₁ =>
            if has_options then carve_scan rng ff rest board u₁ s₁
            else GenOut.ok (board.set_tile c Tile.Empty, u₁, true) s₁
          | GenOut.err e s₁ => GenOut.err e s₁
          | GenOut.panic => GenOut.panic
          | GenOut.fuelOut => GenOut.fuelOut) = GenOut.ok (b', u', true) s' := h
    cases hg : board.get_tile c with
    | Empty => rw [hg] at h1; exact GenOut.noConfusion h1
    | Filled orig =>
      rw [hg] at h1
      have h1' : (match check_alternative_digits rng ff board c
            (alt_digits orig) false u s with
          | GenOut.ok (has_options, u₁) s₁ =>
            if has_options then carve_scan rng ff rest board u₁ s₁
            else GenOut.ok (board.set_tile c Tile.Empty, u₁, true) s₁
          | GenOut.err e s₁ => GenOut.err e s₁
          | GenOut.panic => GenOut.panic
          | GenOut.fuelOut => GenOut.fuelOut) = GenOut.ok (b', u', true) s' := h1
      cases hchk : check_alternative_digits rng ff board c (alt_digits orig) false u s with
      | ok p s₁ =>
        obtain ⟨ho, u₁⟩ := p
        rw [hchk] at h1'
        have h2 : (if ho then carve_scan rng ff rest board u₁ s₁
            else GenOut.ok (board.set_tile c Tile.Empty, u₁, true) s₁) =
            GenOut.ok (b', u', true) s' := h1'
        cases ho with
        | true =>
          have h3 : carve_scan rng ff rest board u₁ s₁ = GenOut.ok (b', u', true) s' := h2
          exact carve_scan_removed rng ff rest board u₁ s₁ b' u' s' h3
        | false =>
          have h3 : GenOut.ok (σ := σ) (board.set_tile c Tile.Empty, u₁, true) s₁ =
              GenOut.ok (b', u', true) s' := h2
          have hb : b' = board.set_tile c Tile.Empty := by cases h3; rfl
          exact ⟨c, orig, hg, hb⟩
      | err e s₁ => rw [hchk] at h1'; exact GenOut.noConfusion h1'
      | panic => rw [hchk] at h1'; exact GenOut.noConfusion h1'
      | fuelOut => rw [hchk] at h1'; exact GenOut.noConfusion h1'

/-- With a desired clue count of at least 81, the carver can never return
`Ok`: the target is only compared after a removal, and after a removal at
most 80 cells remain filled. -/
lemma try_empty_board_81_no_ok {σ : Type} (rng : Rng σ) (ff : Nat) (desired : Nat)
    (h81 : 81 ≤ desired) :
    ∀ (fuel : Nat) (board : Board) (u : List Coord) (s : σ) (b' : Board) (s' : σ),
      board.EmptyOutside →
      try_empty_board rng ff fuel board desired u s = GenOut.ok b' s' → False
  | 0, board, u, s, b', s', _, h => by exact GenOut.noConfusion h
  | fuel + 1, board, u, s, b', s', hE, h => by
    have h1 : (match rng.shuffleCoords ((board.get_filled_tile_coords).filter
          (fun coord => !(u.contains coord))) s with
        | (shuffled_coords, s₀) =>
          match carve_scan rng ff shuffled_coords board u s₀ with
          | GenOut.ok (board', u₁, has_replaced) s₁ =>
            if !has_replaced then
              GenOut.err (BoardGeneratorError.NoDeletionsAvailable board') s₁
            else if board'.get_filled_tile_coords.length = desired then
              GenOut.ok board' s₁
            else
              try_empty_board rng ff fuel board' desired u₁ s₁
          | GenOut.err e s₁ => GenOut.err e s₁
          | GenOut.panic => GenOut.panic
          | GenOut.fuelOut => GenOut.fuelOut) = GenOut.ok b' s' := h
    cases hsh : rng.shuffleCoords ((board.get_filled_tile_coords).filter
        (fun coord => !(u.contains coord))) s with
    | mk shuffled_coords s₀ =>
      rw [hsh] at h1
      have h1' : (match carve_scan rng ff shuffled_coords board u s₀ with
          | GenOut.ok (board', u₁, has_replaced) s₁ =>
            if !has_replaced then
              GenOut.err (BoardGeneratorError.NoDeletionsAvailable board') s₁
            else if board'.get_filled_tile_coords.length = desired then
              GenOut.ok board' s₁
            else
              try_empty_board rng ff fuel board' desired u₁ s₁
          | GenOut.err e s₁ => GenOut.err e s₁
          | GenOut.panic => GenOut.panic
          | GenOut.fuelOut => GenOut.fuelOut) = GenOut.ok b' s' := h1
      cases hscan : carve_scan rng ff shuffled_coords board u s₀ with
      | ok p s₁ =>
        obtain ⟨board', u₁, has_replaced⟩ := p
        rw [hscan] at h1'
        cases has_replaced with
        | false =>
          exact GenOut.noConfusion (show GenOut.err (σ := σ)
            (BoardGeneratorError.NoDeletionsAvailable board') s₁ = GenOut.ok b' s'
            from h1')
        | true =>
          obtain ⟨c, d, hcd, hb⟩ :=
            carve_scan_removed rng ff shuffled_coords board u s₀ board' u₁ s₁ hscan
          have hcx : c.x < 9 ∧ c.y < 9 := by
            by_contra hcon
            have h9 : (9 : Nat) ≤ c.x ∨ (9 : Nat) ≤ c.y := by omega
            have : board.rows c.y c.x = Tile.Empty := hE c.x c.y h9
            rw [show board.get_tile c = board.rows c.y c.x from rfl, this] at hcd
            exact Tile.noConfusion hcd
          have hlt : board'.get_filled_tile_coords.length <
              board.get_filled_tile_coords.length := by
            rw [hb]
            exact filled_coords_lt_of_remove board c d hcx.1 hcx.2 hcd
          have hne : ¬(board'.get_filled_tile_coords.length = desired) := by
            have hle := filled_coords_le_81 board
            omega
          have h2 : (if board'.get_filled_tile_coords.length = desired then
                GenOut.ok board' s₁
              else
                try_empty_board rng ff fuel board' desired u₁ s₁) = GenOut.ok b' s' := h1'
          rw [if_neg hne] at h2
          have hE' : board'.EmptyOutside := by
            rw [hb]
            exact empty_outside_set_empty board c hE
          exact try_empty_board_81_no_ok rng ff desired h81 fuel board' u₁ s₁ b' s' hE' h2
      | err e s₁ => rw [hscan] at h1'; exact GenOut.noConfusion h1'
      | panic => rw [hscan] at h1'; exact GenOut.noConfusion h1'
      | fuelOut => rw [hscan] at h1'; exact GenOut.noConfusion h1'

lemma new_board_81_no_ok {σ : Type} (rng : Rng σ) (ff cf desired : Nat)
    (h81 : 81 ≤ desired) (s : σ) (pair : Board × Board) (s' : σ)
    (h : new_board rng ff cf desired s = GenOut.ok pair s') : False := by
  unfold new_board at h
  cases hfill : try_fill_board rng ff Board.default s with
  | ok solved₀ s₁ =>
    rw [hfill] at h
    have hE : solved₀.EmptyOutside :=
      (fill_empty_outside ff).1 σ rng Board.default s solved₀ s₁ empty_outside_default hfill
    have h1 : (match try_empty_board rng ff cf solved₀ desired [] s₁ with
        | GenOut.ok emptied_board s'' => GenOut.ok (solved₀, emptied_board) s''
        | GenOut.err e s'' => GenOut.err e s''
        | GenOut.panic => GenOut.panic
        | GenOut.fuelOut => GenOut.fuelOut) = GenOut.ok pair s' := h
    cases hempty : try_empty_board rng ff cf solved₀ desired [] s₁ with
    | ok emptied₀ s₂ =>
      exact try_empty_board_81_no_ok rng ff desired h81 cf solved₀ [] s₁ emptied₀ s₂ hE hempty
    | err e s₂ => rw [hempty] at h1; exact GenOut.noConfusion h1
    | panic => rw [hempty] at h1; exact GenOut.noConfusion h1
    | fuelOut => rw [hempty] at h1; exact GenOut.noConfusion h1
  | err e s₁ => rw [hfill] at h; exact GenOut.noConfusion h
  | panic => rw [hfill] at h; exact GenOut.noConfusion h
  | fuelOut => rw [hfill] at h; exact GenOut.noConfusion h

/-- Whether a game result is a success. -/
def GameOut.successful {σ : Type} : GameOut σ → Bool
  | GameOut.ok _ _ => true
  | _ => false

/-- C4 — `Game::new_random(1, 81)` can never succeed (so in particular it
never returns the solved board as the clue board): `try_empty_board` compares
the clue count with the target only *after* removing a cell, so a target of
81 is unreachable and every attempt ends in `NoDeletionsAvailable`, making
the result `TriesExceeded` (or a propagated failure), never `Ok`. -/
theorem new_random_81_never_succeeds (σ : Type) (rng : Rng σ) (ff cf : Nat) (s : σ) :
    (new_random rng ff cf 1 81 s).successful = false := by
  have E : new_random rng ff cf 1 81 s =
      (match new_board rng ff cf 81 s with
        | GenOut.ok (solved, emptied) s₁ => GameOut.ok ⟨[], emptied, solved⟩ s₁
        | GenOut.err (BoardGeneratorError.NoDeletionsAvailable _) s₁ =>
          new_random rng ff cf 0 81 s₁
        | GenOut.err e s₁ => GameOut.err (GameError.BoardGeneratorError e) s₁
        | GenOut.panic => GameOut.panic
        | GenOut.fuelOut => GameOut.fuelOut) := rfl
  cases hnb : new_board rng ff cf 81 s with
  | ok pair s₁ =>
    exact absurd hnb (fun hc => new_board_81_no_ok rng ff cf 81 (by omega) s pair s₁ hc)
  | err e s₁ =>
    rw [E, hnb]
    cases e with
    | NoDeletionsAvailable b => rfl
    | NoNumberAvailable => rfl
    | MultipleSolutionsAvailable => rfl
  | panic => rw [E, hnb]; rfl
  | fuelOut => rw [E, hnb]; rfl

/-! ## C3: the carver iteration removes exactly the first cell with no
completing alternate digit -/

/-- Spec-side reading of "some alternate digit yields a locally valid board
that `try_fill_board` completes", threading the random-source state exactly
as the code's inner loop consumes it (the filler is only invoked, and hence
the state only advances, on locally valid substitutions). -/
def HasCompletingAlt {σ : Type} (rng : Rng σ) (ff : Nat) (board : Board) (coord : Coord) :
    List Nat → σ → Prop
  | [], _ => False
  | d :: ds, s =>
    match (board.set_tile coord (Tile.Filled d)).verify_board with
    | some false => HasCompletingAlt rng ff board coord ds s
    | some true =>
      match try_fill_board rng ff (board.set_tile coord (Tile.Filled d)) s with
      | GenOut.ok _ _ => True
      | GenOut.err BoardGeneratorError.NoNumberAvailable s' =>
        HasCompletingAlt rng ff board coord ds s'
      | _ => False
    | _ => False

/-- Spec-side reading of "every alternate digit either fails `verify_board`
or makes `try_fill_board` fail with `NoNumberAvailable`", threading the
random-source state as the code does. -/
def NoCompletingAlt {σ : Type} (rng : Rng σ) (ff : Nat) (board : Board) (coord : Coord) :
    List Nat → σ → Prop
  | [], _ => True
  | d :: ds, s =>
    match (board.set_tile coord (Tile.Filled d)).verify_board with
    | some false => NoCompletingAlt rng ff board coord ds s
    | some true =>
      match try_fill_board rng ff (board.set_tile coord (Tile.Filled d)) s with
      | GenOut.ok _ _ => False
      | GenOut.err BoardGeneratorError.NoNumberAvailable s' =>
        NoCompletingAlt rng ff board coord ds s'
      | _ => False
    | _ => False

/-- The random-source state after the carver scan has processed a prefix of
candidate coordinates (each of them marked, none removed). -/
def scan_state {σ : Type} (rng : Rng σ) (ff : Nat) (board : Board) : List Coord → σ → σ
  | [], s => s
  | c :: cs, s =>
    match board.get_tile c with
    | Tile.Empty => s
    | Tile.Filled orig =>
      match check_alternative_digits rng ff board c (alt_digits orig) false [] s with
      | GenOut.ok _ s' => scan_state rng ff board cs s'
      | _ => s

lemma update_err_no_number {σ : Type} (rng : Rng σ) (board : Board) (coord : Coord)
    (excluding : SudokuHashSet) (s : σ) (e : BoardGeneratorError) (s' : σ)
    (h : update_board_with_random_number rng board coord excluding s = GenOut.err e s') :
    e = BoardGeneratorError.NoNumberAvailable := by
  unfold update_board_with_random_number at h
  cases he : exclude_nums excluding ((List.range BOARD_SIZE).map (· + 1)) with
  | none => rw [he] at h; exact GenOut.noConfusion h
  | some nums =>
    rw [he] at h
    simp only at h
    cases hu : update_tile_loop coord board (rng.shuffleNums nums s).1 with
    | found n nb => rw [hu] at h; exact GenOut.noConfusion h
    | exhausted =>
      rw [hu] at h
      have h' : GenOut.err (σ := σ) (α := Nat × Board)
          BoardGeneratorError.NoNumberAvailable (rng.shuffleNums nums s).2 =
          GenOut.err e s' := h
      cases h'
      rfl
    | panicked => rw [hu] at h; exact GenOut.noConfusion h

/-- The filler can only fail with `NoNumberAvailable`: the other error kinds
are never constructed by `try_fill_board` or its loop. -/
lemma fill_err_no_number :
    ∀ fuel : Nat,
      (∀ (σ : Type) (rng : Rng σ) (board : Board) (s : σ)
          (e : BoardGeneratorError) (s' : σ),
        try_fill_board rng fuel board s = GenOut.err e s' →
        e = BoardGeneratorError.NoNumberAvailable) ∧
      (∀ (σ : Type) (rng : Rng σ) (board : Board) (coord : Coord)
          (excluding : SudokuHashSet) (s : σ) (e : BoardGeneratorError) (s' : σ),
        fill_cell_loop rng fuel board coord excluding s = GenOut.err e s' →
        e = BoardGeneratorError.NoNumberAvailable) := by
  intro fuel
  induction fuel with
  | zero =>
    constructor
    · intro σ rng board s e s' h
      exact GenOut.noConfusion h
    · intro σ rng board coord excluding s e s' h
      exact GenOut.noConfusion h
  | succ fuel ih =>
    constructor
    · intro σ rng board s e s' h
      rw [show try_fill_board rng (fuel + 1) board s =
          (match first_empty_coord board with
            | some coord => fill_cell_loop rng fuel board coord SudokuHashSet.new s
            | none => if board.is_complete then GenOut.ok board s else GenOut.panic)
        from rfl] at h
      cases hfe : first_empty_coord board with
      | some coord =>
        rw [hfe] at h
        exact ih.2 σ rng board coord SudokuHashSet.new s e s' h
      | none =>
        rw [hfe] at h
        cases hic : board.is_complete with
        | true =>
          rw [hic, if_pos rfl] at h
          exact GenOut.noConfusion h
        | false =>
          rw [hic] at h
          simp only [Bool.false_eq_true, if_false] at h
          exact GenOut.noConfusion h
    · intro σ rng board coord excluding s e s' h
      rw [show fill_cell_loop rng (fuel + 1) board coord excluding s =
          (match update_board_with_random_number rng board coord excluding s with
            | GenOut.err e s' => GenOut.err e s'
            | GenOut.panic => GenOut.panic
            | GenOut.fuelOut => GenOut.fuelOut
            | GenOut.ok (num, board') s' =>
              match excluding.insert num with
              | none => GenOut.panic
              | some excluding' =>
                match try_fill_board rng fuel board' s' with
                | GenOut.ok b s'' => GenOut.ok b s''
                | GenOut.err BoardGeneratorError.NoNumberAvailable s'' =>
                  fill_cell_loop rng fuel board coord excluding' s''
                | GenOut.err e s'' => GenOut.err e s''
                | GenOut.panic => GenOut.panic
                | GenOut.fuelOut => GenOut.fuelOut)
        from rfl] at h
      cases hu : update_board_with_random_number rng board coord excluding s with
      | ok p s₁ =>
        obtain ⟨num, board'⟩ := p
        rw [hu] at h
        have h2 : (match excluding.insert num with
            | none => GenOut.panic
            | some excluding' =>
              match try_fill_board rng fuel board' s₁ with
              | GenOut.ok b s'' => GenOut.ok b s''
              | GenOut.err BoardGeneratorError.NoNumberAvailable s'' =>
                fill_cell_loop rng fuel board coord excluding' s''
              | GenOut.err e s'' => GenOut.err e s''
              | GenOut.panic => GenOut.panic
              | GenOut.fuelOut => GenOut.fuelOut) = GenOut.err e s' := h
        cases hins : excluding.insert num with
        | none => rw [hins] at h2; exact GenOut.noConfusion h2
        | some excluding' =>
          rw [hins] at h2
          have h3 : (match try_fill_board rng fuel board' s₁ with
              | GenOut.ok b s'' => GenOut.ok b s''
              | GenOut.err BoardGeneratorError.NoNumberAvailable s'' =>
                fill_cell_loop rng fuel board coord excluding' s''
              | GenOut.err e s'' => GenOut.err e s''
              | GenOut.panic => GenOut.panic
              | GenOut.fuelOut => GenOut.fuelOut) = GenOut.err e s' := h2
          cases hf : try_fill_board rng fuel board' s₁ with
          | ok b s₂ => rw [hf] at h3; exact GenOut.noConfusion h3
          | err e₂ s₂ =>
            rw [hf] at h3
            cases e₂ with
            | NoNumberAvailable =>
              exact ih.2 σ rng board coord excluding' s₂ e s' h3
            | MultipleSolutionsAvailable =>
              exact absurd (ih.1 σ rng board' s₁ _ s₂ hf) (by simp)
            | NoDeletionsAvailable b =>
              exact absurd (ih.1 σ rng board' s₁ _ s₂ hf) (by simp)
          | panic => rw [hf] at h3; exact GenOut.noConfusion h3
          | fuelOut => rw [hf] at h3; exact GenOut.noConfusion h3
      | err e₁ s₁ =>
        rw [hu] at h
        have h' : GenOut.err (σ := σ) (α := Board) e₁ s₁ = GenOut.err e s' := h
        have he : e = e₁ := by cases h'; rfl
        rw [he]
        exact update_err_no_number rng board coord excluding s e₁ s₁ hu
      | panic => rw [hu] at h; exact GenOut.noConfusion h
      | fuelOut => rw [hu] at h; exact GenOut.noConfusion h

lemma check_alt_cons {σ : Type} (rng : Rng σ) (ff : Nat) (board : Board) (coord : Coord)
    (i : Nat) (ds : List Nat) (ho : Bool) (u : List Coord) (s : σ) :
    check_alternative_digits rng ff board coord (i :: ds) ho u s =
      (match (board.set_tile coord (Tile.Filled i)).verify_board with
        | none => GenOut.panic
        | some false => check_alternative_digits rng ff board coord ds ho u s
        | some true =>
          match try_fill_board rng ff (board.set_tile coord (Tile.Filled i)) s with
          | GenOut.ok _ s' =>
            check_alternative_digits rng ff board coord ds true (u ++ [coord]) s'
          | GenOut.err BoardGeneratorError.MultipleSolutionsAvailable s' =>
            check_alternative_digits rng ff board coord ds true (u ++ [coord]) s'
          | GenOut.err BoardGeneratorError.NoNumberAvailable s' =>
            check_alternative_digits rng ff board coord ds ho u s'
          | GenOut.err e s' => GenOut.err e s'
          | GenOut.panic => GenOut.panic
          | GenOut.fuelOut => GenOut.fuelOut) := rfl

lemma has_alt_cons {σ : Type} (rng : Rng σ) (ff : Nat) (board : Board) (coord : Coord)
    (i : Nat) (ds : List Nat) (s : σ) :
    HasCompletingAlt rng ff board coord (i :: ds) s =
      (match (board.set_tile coord (Tile.Filled i)).verify_board with
        | some false => HasCompletingAlt rng ff board coord ds s
        | some true =>
          match try_fill_board rng ff (board.set_tile coord (Tile.Filled i)) s with
          | GenOut.ok _ _ => True
          | GenOut.err BoardGeneratorError.NoNumberAvailable s' =>
            HasCompletingAlt rng ff board coord ds s'
          | _ => False
        | _ => False) := rfl

lemma no_alt_cons {σ : Type} (rng : Rng σ) (ff : Nat) (board : Board) (coord : Coord)
    (i : Nat) (ds : List Nat) (s : σ) :
    NoCompletingAlt rng ff board coord (i :: ds) s =
      (match (board.set_tile coord (Tile.Filled i)).verify_board with
        | some false => NoCompletingAlt rng ff board coord ds s
        | some true =>
          match try_fill_board rng ff (board.set_tile coord (Tile.Filled i)) s with
          | GenOut.ok _ _ => False
          | GenOut.err BoardGeneratorError.NoNumberAvailable s' =>
            NoCompletingAlt rng ff board coord ds s'
          | _ => False
        | _ => False) := rfl

/-- The unreplaceable list is threaded through the digit loop untouched
except for appends, and neither the boolean result, the final state, nor the
appended part depends on it. -/
lemma check_alt_ok_u {σ : Type} (rng : Rng σ) (ff : Nat) (board : Board) (coord : Coord) :
    ∀ (ds : List Nat) (ho : Bool) (u : List Coord) (s : σ) (ho₂ : Bool)
      (u₂ : List Coord) (s₂ : σ),
      check_alternative_digits rng ff board coord ds ho u s = GenOut.ok (ho₂, u₂) s₂ →
      ∃ tail, u₂ = u ++ tail ∧
        ∀ u₀ : List Coord, check_alternative_digits rng ff board coord ds ho u₀ s =
          GenOut.ok (ho₂, u₀ ++ tail) s₂
  | [], ho, u, s, ho₂, u₂, s₂, h => by
    have h' : GenOut.ok (σ := σ) (ho, u) s = GenOut.ok (ho₂, u₂) s₂ := h
    cases h'
    exact ⟨[], by simp, fun u₀ => by simp [show check_alternative_digits rng ff board coord
      ([] : List Nat) ho u₀ s = GenOut.ok (ho, u₀) s from rfl]⟩
  | i :: ds, ho, u, s, ho₂, u₂, s₂, h => by
    rw [check_alt_cons] at h
    cases hv : (board.set_tile coord (Tile.Filled i)).verify_board with
    | none => rw [hv] at h; exact GenOut.noConfusion h
    | some bv =>
      rw [hv] at h
      cases bv with
      | false =>
        obtain ⟨tail, htail, hall⟩ := check_alt_ok_u rng ff board coord ds ho u s ho₂ u₂ s₂ h
        refine ⟨tail, htail, fun u₀ => ?_⟩
        rw [check_alt_cons, hv]
        exact hall u₀
      | true =>
        have h2 : (match try_fill_board rng ff (board.set_tile coord (Tile.Filled i)) s with
            | GenOut.ok _ s' =>
              check_alternative_digits rng ff board coord ds true (u ++ [coord]) s'
            | GenOut.err BoardGeneratorError.MultipleSolutionsAvailable s' =>
              check_alternative_digits rng ff board coord ds true (u ++ [coord]) s'
            | GenOut.err BoardGeneratorError.NoNumberAvailable s' =>
              check_alternative_digits rng ff board coord ds ho u s'
            | GenOut.err e s' => GenOut.err e s'
            | GenOut.panic => GenOut.panic
            | GenOut.fuelOut => GenOut.fuelOut) = GenOut.ok (ho₂, u₂) s₂ := h
        cases hf : try_fill_board rng ff (board.set_tile coord (Tile.Filled i)) s with
        | ok b s₁ =>
          rw [hf] at h2
          obtain ⟨tail, htail, hall⟩ := check_alt_ok_u rng ff board coord ds true (u ++ [coord]) s₁ ho₂ u₂ s₂ h2
          refine ⟨coord :: tail, by simpa using htail, fun u₀ => ?_⟩
          rw [check_alt_cons, hv, hf]
          simpa using hall (u₀ ++ [coord])
        | err e s₁ =>
          rw [hf] at h2
          cases e with
          | MultipleSolutionsAvailable =>
            obtain ⟨tail, htail, hall⟩ := check_alt_ok_u rng ff board coord ds true (u ++ [coord]) s₁ ho₂ u₂ s₂ h2
            refine ⟨coord :: tail, by simpa using htail, fun u₀ => ?_⟩
            rw [check_alt_cons, hv, hf]
            simpa using hall (u₀ ++ [coord])
          | NoNumberAvailable =>
            obtain ⟨tail, htail, hall⟩ := check_alt_ok_u rng ff board coord ds ho u s₁ ho₂ u₂ s₂ h2
            refine ⟨tail, htail, fun u₀ => ?_⟩
            rw [check_alt_cons, hv, hf]
            exact hall u₀
          | NoDeletionsAvailable b => exact GenOut.noConfusion h2
        | panic => rw [hf] at h2; exact GenOut.noConfusion h2
        | fuelOut => rw [hf] at h2; exact GenOut.noConfusion h2

/-- Once `has_options` is set it stays set. -/
lemma check_alt_sticky {σ : Type} (rng : Rng σ) (ff : Nat) (board : Board) (coord : Coord) :
    ∀ (ds : List Nat) (u : List Coord) (s : σ) (ho₂ : Bool) (u₂ : List Coord) (s₂ : σ),
      check_alternative_digits rng ff board coord ds true u s = GenOut.ok (ho₂, u₂) s₂ →
      ho₂ = true
  | [], u, s, ho₂, u₂, s₂, h => by
    have h' : GenOut.ok (σ := σ) (true, u) s = GenOut.ok (ho₂, u₂) s₂ := h
    cases h'
    rfl
  | i :: ds, u, s, ho₂, u₂, s₂, h => by
    rw [check_alt_cons] at h
    cases hv : (board.set_tile coord (Tile.Filled i)).verify_board with
    | none => rw [hv] at h; exact GenOut.noConfusion h
    | some bv =>
      rw [hv] at h
      cases bv with
      | false => exact check_alt_sticky rng ff board coord ds u s ho₂ u₂ s₂ h
      | true =>
        have h2 : (match try_fill_board rng ff (board.set_tile coord (Tile.Filled i)) s with
            | GenOut.ok _ s' =>
              check_alternative_digits rng ff board coord ds true (u ++ [coord]) s'
            | GenOut.err BoardGeneratorError.MultipleSolutionsAvailable s' =>
              check_alternative_digits rng ff board coord ds true (u ++ [coord]) s'
            | GenOut.err BoardGeneratorError.NoNumberAvailable s' =>
              check_alternative_digits rng ff board coord ds true u s'
            | GenOut.err e s' => GenOut.err e s'
            | GenOut.panic => GenOut.panic
            | GenOut.fuelOut => GenOut.fuelOut) = GenOut.ok (ho₂, u₂) s₂ := h
        cases hf : try_fill_board rng ff (board.set_tile coord (Tile.Filled i)) s with
        | ok b s₁ =>
          rw [hf] at h2
          exact check_alt_sticky rng ff board coord ds (u ++ [coord]) s₁ ho₂ u₂ s₂ h2
        | err e s₁ =>
          rw [hf] at h2
          cases e with
          | MultipleSolutionsAvailable =>
            exact check_alt_sticky rng ff board coord ds (u ++ [coord]) s₁ ho₂ u₂ s₂ h2
          | NoNumberAvailable => exact check_alt_sticky rng ff board coord ds u s₁ ho₂ u₂ s₂ h2
          | NoDeletionsAvailable b => exact GenOut.noConfusion h2
        | panic => rw [hf] at h2; exact GenOut.noConfusion h2
        | fuelOut => rw [hf] at h2; exact GenOut.noConfusion h2

/-- A digit loop that started with `has_options = false` and reported `true`
found a completing alternate digit (in the claim's sense). -/
lemma check_alt_true_has {σ : Type} (rng : Rng σ) (ff : Nat) (board : Board) (coord : Coord) :
    ∀ (ds : List Nat) (u : List Coord) (s : σ) (u₂ : List Coord) (s₂ : σ),
      check_alternative_digits rng ff board coord ds false u s = GenOut.ok (true, u₂) s₂ →
      HasCompletingAlt rng ff board coord ds s
  | [], u, s, u₂, s₂, h => by
    have h' : GenOut.ok (σ := σ) (false, u) s = GenOut.ok (true, u₂) s₂ := h
    cases h'
  | i :: ds, u, s, u₂, s₂, h => by
    rw [check_alt_cons] at h
    rw [has_alt_cons]
    cases hv : (board.set_tile coord (Tile.Filled i)).verify_board with
    | none => rw [hv] at h; exact GenOut.noConfusion h
    | some bv =>
      rw [hv] at h
      cases bv with
      | false => exact check_alt_true_has rng ff board coord ds u s u₂ s₂ h
      | true =>
        have h2 : (match try_fill_board rng ff (board.set_tile coord (Tile.Filled i)) s with
            | GenOut.ok _ s' =>
              check_alternative_digits rng ff board coord ds true (u ++ [coord]) s'
            | GenOut.err BoardGeneratorError.MultipleSolutionsAvailable s' =>
              check_alternative_digits rng ff board coord ds true (u ++ [coord]) s'
            | GenOut.err BoardGeneratorError.NoNumberAvailable s' =>
              check_alternative_digits rng ff board coord ds false u s'
            | GenOut.err e s' => GenOut.err e s'
            | GenOut.panic => GenOut.panic
            | GenOut.fuelOut => GenOut.fuelOut) = GenOut.ok (true, u₂) s₂ := h
        cases hf : try_fill_board rng ff (board.set_tile coord (Tile.Filled i)) s with
        | ok b s₁ =>
          trivial
        | err e s₁ =>
          cases e with
          | MultipleSolutionsAvailable =>
            exact absurd ((fill_err_no_number ff).1 σ rng _ s _ s₁ hf) (by simp)
          | NoNumberAvailable =>
            rw [hf] at h2
            exact check_alt_true_has rng ff board coord ds u s₁ u₂ s₂ h2
          | NoDeletionsAvailable b =>
            exact absurd ((fill_err_no_number ff).1 σ rng _ s _ s₁ hf) (by simp)
        | panic => rw [hf] at h2; exact GenOut.noConfusion h2
        | fuelOut => rw [hf] at h2; exact GenOut.noConfusion h2

/-- A digit loop that started with `has_options = false` and reported `false`
found no completing alternate digit, and pushed nothing. -/
lemma check_alt_false_no {σ : Type} (rng : Rng σ) (ff : Nat) (board : Board) (coord : Coord) :
    ∀ (ds : List Nat) (u : List Coord) (s : σ) (u₂ : List Coord) (s₂ : σ),
      check_alternative_digits rng ff board coord ds false u s = GenOut.ok (false, u₂) s₂ →
      NoCompletingAlt rng ff board coord ds s ∧ u₂ = u
  | [], u, s, u₂, s₂, h => by
    have h' : GenOut.ok (σ := σ) (false, u) s = GenOut.ok (false, u₂) s₂ := h
    have hu : u₂ = u := by cases h'; rfl
    exact ⟨trivial, hu⟩
  | i :: ds, u, s, u₂, s₂, h => by
    rw [check_alt_cons] at h
    rw [no_alt_cons]
    cases hv : (board.set_tile coord (Tile.Filled i)).verify_board with
    | none => rw [hv] at h; exact GenOut.noConfusion h
    | some bv =>
      rw [hv] at h
      cases bv with
      | false => exact check_alt_false_no rng ff board coord ds u s u₂ s₂ h
      | true =>
        have h2 : (match try_fill_board rng ff (board.set_tile coord (Tile.Filled i)) s with
            | GenOut.ok _ s' =>
              check_alternative_digits rng ff board coord ds true (u ++ [coord]) s'
            | GenOut.err BoardGeneratorError.MultipleSolutionsAvailable s' =>
              check_alternative_digits rng ff board coord ds true (u ++ [coord]) s'
            | GenOut.err BoardGeneratorError.NoNumberAvailable s' =>
              check_alternative_digits rng ff board coord ds false u s'
            | GenOut.err e s' => GenOut.err e s'
            | GenOut.panic => GenOut.panic
            | GenOut.fuelOut => GenOut.fuelOut) = GenOut.ok (false, u₂) s₂ := h
        cases hf : try_fill_board rng ff (board.set_tile coord (Tile.Filled i)) s with
        | ok b s₁ =>
          rw [hf] at h2
          exact absurd (check_alt_sticky rng ff board coord ds (u ++ [coord]) s₁
            false u₂ s₂ h2) (by simp)
        | err e s₁ =>
          cases e with
          | MultipleSolutionsAvailable =>
            exact absurd ((fill_err_no_number ff).1 σ rng _ s _ s₁ hf) (by simp)
          | NoNumberAvailable =>
            rw [hf] at h2
            exact check_alt_false_no rng ff board coord ds u s₁ u₂ s₂ h2
          | NoDeletionsAvailable b =>
            exact absurd ((fill_err_no_number ff).1 σ rng _ s _ s₁ hf) (by simp)
        | panic => rw [hf] at h2; exact GenOut.noConfusion h2
        | fuelOut => rw [hf] at h2; exact GenOut.noConfusion h2

/-- A digit loop that turned `has_options` on pushed its coordinate into the
unreplaceable list. -/
lemma check_alt_mem {σ : Type} (rng : Rng σ) (ff : Nat) (board : Board) (coord : Coord) :
    ∀ (ds : List Nat) (u : List Coord) (s : σ) (u₂ : List Coord) (s₂ : σ),
      check_alternative_digits rng ff board coord ds false u s = GenOut.ok (true, u₂) s₂ →
      coord ∈ u₂
  | [], u, s, u₂, s₂, h => by
    have h' : GenOut.ok (σ := σ) (false, u) s = GenOut.ok (true, u₂) s₂ := h
    cases h'
  | i :: ds, u, s, u₂, s₂, h => by
    rw [check_alt_cons] at h
    cases hv : (board.set_tile coord (Tile.Filled i)).verify_board with
    | none => rw [hv] at h; exact GenOut.noConfusion h
    | some bv =>
      rw [hv] at h
      cases bv with
      | false => exact check_alt_mem rng ff board coord ds u s u₂ s₂ h
      | true =>
        have h2 : (match try_fill_board rng ff (board.set_tile coord (Tile.Filled i)) s with
            | GenOut.ok _ s' =>
              check_alternative_digits rng ff board coord ds true (u ++ [coord]) s'
            | GenOut.err BoardGeneratorError.MultipleSolutionsAvailable s' =>
              check_alternative_digits rng ff board coord ds true (u ++ [coord]) s'
            | GenOut.err BoardGeneratorError.NoNumberAvailable s' =>
              check_alternative_digits rng ff board coord ds false u s'
            | GenOut.err e s' => GenOut.err e s'
            | GenOut.panic => GenOut.panic
            | GenOut.fuelOut => GenOut.fuelOut) = GenOut.ok (true, u₂) s₂ := h
        cases hf : try_fill_board rng ff (board.set_tile coord (Tile.Filled i)) s with
        | ok b s₁ =>
          rw [hf] at h2
          obtain ⟨tail, htail, _⟩ :=
            check_alt_ok_u rng ff board coord ds true (u ++ [coord]) s₁ true u₂ s₂ h2
          rw [htail]
          simp
        | err e s₁ =>
          cases e with
          | MultipleSolutionsAvailable =>
            rw [hf] at h2
            obtain ⟨tail, htail, _⟩ :=
              check_alt_ok_u rng ff board coord ds true (u ++ [coord]) s₁ true u₂ s₂ h2
            rw [htail]
            simp
          | NoNumberAvailable =>
            rw [hf] at h2
            exact check_alt_mem rng ff board coord ds u s₁ u₂ s₂ h2
          | NoDeletionsAvailable b =>
            rw [hf] at h2
            exact GenOut.noConfusion h2
        | panic => rw [hf] at h2; exact GenOut.noConfusion h2
        | fuelOut => rw [hf] at h2; exact GenOut.noConfusion h2

/-- No alternate completes and some alternate completes are contradictory. -/
lemma no_has_disjoint {σ : Type} (rng : Rng σ) (ff : Nat) (board : Board) (coord : Coord) :
    ∀ (ds : List Nat) (s : σ),
      NoCompletingAlt rng ff board coord ds s →
      HasCompletingAlt rng ff board coord ds s → False
  | [], s, _, hH => hH
  | i :: ds, s, hN, hH => by
    rw [no_alt_cons] at hN
    rw [has_alt_cons] at hH
    cases hv : (board.set_tile coord (Tile.Filled i)).verify_board with
    | none => rw [hv] at hN; exact hN
    | some bv =>
      rw [hv] at hN hH
      cases bv with
      | false => exact no_has_disjoint rng ff board coord ds s hN hH
      | true =>
        cases hf : try_fill_board rng ff (board.set_tile coord (Tile.Filled i)) s with
        | ok b s₁ => rw [hf] at hN; exact hN
        | err e s₁ =>
          cases e with
          | NoNumberAvailable =>
            rw [hf] at hN hH
            exact no_has_disjoint rng ff board coord ds s₁ hN hH
          | MultipleSolutionsAvailable => rw [hf] at hN; exact hN
          | NoDeletionsAvailable b => rw [hf] at hN; exact hN
        | panic => rw [hf] at hN; exact hN
        | fuelOut => rw [hf] at hN; exact hN

lemma carve_scan_cons {σ : Type} (rng : Rng σ) (ff : Nat) (c : Coord) (rest : List Coord)
    (board : Board) (u : List Coord) (s : σ) :
    carve_scan rng ff (c :: rest) board u s =
      (match board.get_tile c with
        | Tile.Empty => GenOut.panic
        | Tile.Filled original_value =>
          match check_alternative_digits rng ff board c
              (alt_digits original_value) false u s with
          | GenOut.ok (has_options, u₁) s₁ =>
            if has_options then carve_scan rng ff rest board u₁ s₁
            else GenOut.ok (board.set_tile c Tile.Empty, u₁, true) s₁
          | GenOut.err e s₁ => GenOut.err e s₁
          | GenOut.panic => GenOut.panic
          | GenOut.fuelOut => GenOut.fuelOut) := rfl

lemma scan_state_cons_step {σ : Type} (rng : Rng σ) (ff : Nat) (board : Board)
    (c : Coord) (cs : List Coord) (s : σ) (orig : Nat) (p : Bool × List Coord) (s₁ : σ)
    (hg : board.get_tile c = Tile.Filled orig)
    (hchk : check_alternative_digits rng ff board c (alt_digits orig) false [] s =
      GenOut.ok p s₁) :
    scan_state rng ff board (c :: cs) s = scan_state rng ff board cs s₁ := by
  rw [show scan_state rng ff board (c :: cs) s =
      (match board.get_tile c with
        | Tile.Empty => s
        | Tile.Filled orig =>
          match check_alternative_digits rng ff board c (alt_digits orig) false [] s with
          | GenOut.ok _ s' => scan_state rng ff board cs s'
          | _ => s) from rfl, hg]
  show (match check_alternative_digits rng ff board c (alt_digits orig) false [] s with
    | GenOut.ok _ s' => scan_state rng ff board cs s'
    | _ => s) = scan_state rng ff board cs s₁
  rw [hchk]

/-- The scan only appends to the unreplaceable list. -/
lemma carve_scan_u_grows {σ : Type} (rng : Rng σ) (ff : Nat) :
    ∀ (cands : List Coord) (board : Board) (u : List Coord) (s : σ)
      (b' : Board) (u' : List Coord) (flag : Bool) (s' : σ),
      carve_scan rng ff cands board u s = GenOut.ok (b', u', flag) s' →
      ∃ tail, u' = u ++ tail
  | [], board, u, s, b', u', flag, s', h => by
    have h' : GenOut.ok (σ := σ) (board, u, false) s = GenOut.ok (b', u', flag) s' := h
    have hu : u' = u := by cases h'; rfl
    exact ⟨[], by simp [hu]⟩
  | c :: rest, board, u, s, b', u', flag, s', h => by
    rw [carve_scan_cons] at h
    cases hg : board.get_tile c with
    | Empty => rw [hg] at h; exact GenOut.noConfusion h
    | Filled orig =>
      rw [hg] at h
      have h1 : (match check_alternative_digits rng ff board c
            (alt_digits orig) false u s with
          | GenOut.ok (has_options, u₁) s₁ =>
            if has_options then carve_scan rng ff rest board u₁ s₁
            else GenOut.ok (board.set_tile c Tile.Empty, u₁, true) s₁
          | GenOut.err e s₁ => GenOut.err e s₁
          | GenOut.panic => GenOut.panic
          | GenOut.fuelOut => GenOut.fuelOut) = GenOut.ok (b', u', flag) s' := h
      cases hchk : check_alternative_digits rng ff board c (alt_digits orig) false u s with
      | ok p s₁ =>
        obtain ⟨ho, u₁⟩ := p
        rw [hchk] at h1
        obtain ⟨t₁, ht₁, _⟩ := check_alt_ok_u rng ff board c _ false u s ho u₁ s₁ hchk
        have h2 : (if ho then carve_scan rng ff rest board u₁ s₁
            else GenOut.ok (board.set_tile c Tile.Empty, u₁, true) s₁) =
            GenOut.ok (b', u', flag) s' := h1
        cases ho with
        | true =>
          have h3 : carve_scan rng ff rest board u₁ s₁ = GenOut.ok (b', u', flag) s' := h2
          obtain ⟨t₂, ht₂⟩ := carve_scan_u_grows rng ff rest board u₁ s₁ b' u' flag s' h3
          exact ⟨t₁ ++ t₂, by rw [ht₂, ht₁, List.append_assoc]⟩
        | false =>
          have h3 : GenOut.ok (σ := σ) (board.set_tile c Tile.Empty, u₁, true) s₁ =
              GenOut.ok (b', u', flag) s' := h2
          have hu : u' = u₁ := by cases h3; rfl
          exact ⟨t₁, by rw [hu, ht₁]⟩
      | err e s₁ => rw [hchk] at h1; exact GenOut.noConfusion h1
      | panic => rw [hchk] at h1; exact GenOut.noConfusion h1
      | fuelOut => rw [hchk] at h1; exact GenOut.noConfusion h1

/-- A scan that removed a cell removed the first candidate with no completing
alternate digit: every earlier candidate had one (and was marked), and the
removed cell's digit had none. -/
lemma carve_scan_true_decomp {σ : Type} (rng : Rng σ) (ff : Nat) :
    ∀ (cands : List Coord) (board : Board) (u : List Coord) (s : σ)
      (b' : Board) (u' : List Coord) (s' : σ),
      carve_scan rng ff cands board u s = GenOut.ok (b', u', true) s' →
      ∃ pre c rest, cands = pre ++ c :: rest ∧
        (∃ orig, board.get_tile c = Tile.Filled orig ∧
          NoCompletingAlt rng ff board c (alt_digits orig)
            (scan_state rng ff board pre s) ∧
          b' = board.set_tile c Tile.Empty) ∧
        (∀ i (h : i < pre.length), ∃ orig₂,
          board.get_tile (pre.get ⟨i, h⟩) = Tile.Filled orig₂ ∧
          HasCompletingAlt rng ff board (pre.get ⟨i, h⟩) (alt_digits orig₂)
            (scan_state rng ff board (pre.take i) s) ∧
          pre.get ⟨i, h⟩ ∈ u')
  | [], board, u, s, b', u', s', h => by
    have h' : GenOut.ok (σ := σ) (board, u, false) s = GenOut.ok (b', u', true) s' := h
    cases h'
  | c :: rest, board, u, s, b', u', s', h => by
    rw [carve_scan_cons] at h
    cases hg : board.get_tile c with
    | Empty => rw [hg] at h; exact GenOut.noConfusion h
    | Filled orig =>
      rw [hg] at h
      have h1 : (match check_alternative_digits rng ff board c
            (alt_digits orig) false u s with
          | GenOut.ok (has_options, u₁) s₁ =>
            if has_options then carve_scan rng ff rest board u₁ s₁
            else GenOut.ok (board.set_tile c Tile.Empty, u₁, true) s₁
          | GenOut.err e s₁ => GenOut.err e s₁
          | GenOut.panic => GenOut.panic
          | GenOut.fuelOut => GenOut.fuelOut) = GenOut.ok (b', u', true) s' := h
      cases hchk : check_alternative_digits rng ff board c (alt_digits orig) false u s with
      | ok p s₁ =>
        obtain ⟨ho, u₁⟩ := p
        rw [hchk] at h1
        have h2 : (if ho then carve_scan rng ff rest board u₁ s₁
            else GenOut.ok (board.set_tile c Tile.Empty, u₁, true) s₁) =
            GenOut.ok (b', u', true) s' := h1
        obtain ⟨t₁, ht₁, hall⟩ := check_alt_ok_u rng ff board c _ false u s ho u₁ s₁ hchk
        cases ho with
        | false =>
          have h3 : GenOut.ok (σ := σ) (board.set_tile c Tile.Empty, u₁, true) s₁ =
              GenOut.ok (b', u', true) s' := h2
          have hb : b' = board.set_tile c Tile.Empty := by cases h3; rfl
          refine ⟨[], c, rest, rfl, ⟨orig, hg, ?_, hb⟩, fun i hi => absurd hi (by simp)⟩
          exact (check_alt_false_no rng ff board c _ u s u₁ s₁ hchk).1
        | true =>
          have h3 : carve_scan rng ff rest board u₁ s₁ = GenOut.ok (b', u', true) s' := h2
          obtain ⟨pre', c₀, rest', hcands, ⟨orig₀, hg₀, hno₀, hb₀⟩, hpre'⟩ :=
            carve_scan_true_decomp rng ff rest board u₁ s₁ b' u' s' h3
          have hstep : ∀ cs : List Coord,
              scan_state rng ff board (c :: cs) s = scan_state rng ff board cs s₁ :=
            fun cs => scan_state_cons_step rng ff board c cs s orig (true, [] ++ t₁) s₁
              hg (hall [])
          refine ⟨c :: pre', c₀, rest', by rw [hcands]; rfl, ⟨orig₀, hg₀, ?_, hb₀⟩, ?_⟩
          · rw [hstep pre']
            exact hno₀
          · intro i hi
            match i, hi with
            | 0, _ =>
              refine ⟨orig, hg, ?_, ?_⟩
              · exact check_alt_true_has rng ff board c _ u s u₁ s₁ hchk
              · obtain ⟨t₂, ht₂⟩ := carve_scan_u_grows rng ff rest board u₁ s₁ b' u' true s' h3
                rw [ht₂]
                exact List.mem_append_left _ (check_alt_mem rng ff board c _ u s u₁ s₁ hchk)
            | i + 1, hi =>
              obtain ⟨orig₂, hg₂, hhas₂, hmem₂⟩ := hpre' i (by
                have : i + 1 < pre'.length + 1 := hi
                omega)
              refine ⟨orig₂, hg₂, ?_, hmem₂⟩
              rw [show (c :: pre').take (i + 1) = c :: pre'.take i from rfl, hstep (pre'.take i)]
              exact hhas₂
      | err e s₁ => rw [hchk] at h1; exact GenOut.noConfusion h1
      | panic => rw [hchk] at h1; exact GenOut.noConfusion h1
      | fuelOut => rw [hchk] at h1; exact GenOut.noConfusion h1

/-- A scan that removed nothing cannot have contained a candidate with no
completing alternate digit after the candidates before it were processed. -/
lemma carve_scan_false_no_removable {σ : Type} (rng : Rng σ) (ff : Nat) :
    ∀ (pre : List Coord) (c : Coord) (rest : List Coord) (board : Board)
      (u : List Coord) (s : σ) (b' : Board) (u' : List Coord) (s' : σ),
      carve_scan rng ff (pre ++ c :: rest) board u s = GenOut.ok (b', u', false) s' →
      (∃ orig, board.get_tile c = Tile.Filled orig ∧
        NoCompletingAlt rng ff board c (alt_digits orig)
          (scan_state rng ff board pre s)) → False
  | [], c, rest, board, u, s, b', u', s', h, ⟨orig, hg, hno⟩ => by
    rw [show ([] : List Coord) ++ c :: rest = c :: rest from rfl, carve_scan_cons, hg] at h
    have h1 : (match check_alternative_digits rng ff board c
          (alt_digits orig) false u s with
        | GenOut.ok (has_options, u₁) s₁ =>
          if has_options then carve_scan rng ff rest board u₁ s₁
          else GenOut.ok (board.set_tile c Tile.Empty, u₁, true) s₁
        | GenOut.err e s₁ => GenOut.err e s₁
        | GenOut.panic => GenOut.panic
        | GenOut.fuelOut => GenOut.fuelOut) = GenOut.ok (b', u', false) s' := h
    cases hchk : check_alternative_digits rng ff board c (alt_digits orig) false u s with
    | ok p s₁ =>
      obtain ⟨ho, u₁⟩ := p
      rw [hchk] at h1
      have h2 : (if ho then carve_scan rng ff rest board u₁ s₁
          else GenOut.ok (board.set_tile c Tile.Empty, u₁, true) s₁) =
          GenOut.ok (b', u', false) s' := h1
      cases ho with
      | false =>
        have h3 : GenOut.ok (σ := σ) (board.set_tile c Tile.Empty, u₁, true) s₁ =
            GenOut.ok (b', u', false) s' := h2
        cases h3
      | true =>
        have hhas := check_alt_true_has rng ff board c _ u s u₁ s₁ hchk
        exact no_has_disjoint rng ff board c _ s hno hhas
    | err e s₁ => rw [hchk] at h1; exact GenOut.noConfusion h1
    | panic => rw [hchk] at h1; exact GenOut.noConfusion h1
    | fuelOut => rw [hchk] at h1; exact GenOut.noConfusion h1
  | c₁ :: pre', c, rest, board, u, s, b', u', s', h, ⟨orig, hg, hno⟩ => by
    rw [show (c₁ :: pre') ++ c :: rest = c₁ :: (pre' ++ c :: rest) from rfl,
      carve_scan_cons] at h
    cases hg₁ : board.get_tile c₁ with
    | Empty => rw [hg₁] at h; exact GenOut.noConfusion h
    | Filled orig₁ =>
      rw [hg₁] at h
      have h1 : (match check_alternative_digits rng ff board c₁
            (alt_digits orig₁) false u s with
          | GenOut.ok (has_options, u₁) s₁ =>
            if has_options then carve_scan rng ff (pre' ++ c :: rest) board u₁ s₁
            else GenOut.ok (board.set_tile c₁ Tile.Empty, u₁, true) s₁
          | GenOut.err e s₁ => GenOut.err e s₁
          | GenOut.panic => GenOut.panic
          | GenOut.fuelOut => GenOut.fuelOut) = GenOut.ok (b', u', false) s' := h
      cases hchk : check_alternative_digits rng ff board c₁ (alt_digits orig₁) false u s with
      | ok p s₁ =>
        obtain ⟨ho, u₁⟩ := p
        rw [hchk] at h1
        have h2 : (if ho then carve_scan rng ff (pre' ++ c :: rest) board u₁ s₁
            else GenOut.ok (board.set_tile c₁ Tile.Empty, u₁, true) s₁) =
            GenOut.ok (b', u', false) s' := h1
        cases ho with
        | false =>
          have h3 : GenOut.ok (σ := σ) (board.set_tile c₁ Tile.Empty, u₁, true) s₁ =
              GenOut.ok (b', u', false) s' := h2
          cases h3
        | true =>
          have h3 : carve_scan rng ff (pre' ++ c :: rest) board u₁ s₁ =
              GenOut.ok (b', u', false) s' := h2
          obtain ⟨t₁, ht₁, hall⟩ := check_alt_ok_u rng ff board c₁ _ false u s true u₁ s₁ hchk
          have hstep := scan_state_cons_step rng ff board c₁ pre' s orig₁
            (true, [] ++ t₁) s₁ hg₁ (hall [])
          rw [hstep] at hno
          exact carve_scan_false_no_removable rng ff pre' c rest board u₁ s₁ b' u' s' h3
            ⟨orig, hg, hno⟩
      | err e s₁ => rw [hchk] at h1; exact GenOut.noConfusion h1
      | panic => rw [hchk] at h1; exact GenOut.noConfusion h1
      | fuelOut => rw [hchk] at h1; exact GenOut.noConfusion h1

/-- C3 — in one carver iteration over the candidate coordinates, a cell is
removed (ending the iteration, `has_replaced_a_tile = true`) iff it is the
first candidate such that every alternate digit of `1..9` either fails
`verify_board` or makes `try_fill_board` fail with `NoNumberAvailable`;
every earlier candidate had some locally valid alternate that the filler
completed, and was added to the unreplaceable list instead of being
removed. -/
theorem carve_scan_removal_iff (σ : Type) (rng : Rng σ) (ff : Nat) (cands : List Coord)
    (board : Board) (u : List Coord) (s : σ) (b' : Board) (u' : List Coord) (flag : Bool)
    (s' : σ) (hrun : carve_scan rng ff cands board u s = GenOut.ok (b', u', flag) s') :
    flag = true ↔
      ∃ pre c rest, cands = pre ++ c :: rest ∧
        (∃ orig, board.get_tile c = Tile.Filled orig ∧
          NoCompletingAlt rng ff board c (alt_digits orig)
            (scan_state rng ff board pre s) ∧
          b' = board.set_tile c Tile.Empty) ∧
        (∀ i (h : i < pre.length), ∃ orig₂,
          board.get_tile (pre.get ⟨i, h⟩) = Tile.Filled orig₂ ∧
          HasCompletingAlt rng ff board (pre.get ⟨i, h⟩) (alt_digits orig₂)
            (scan_state rng ff board (pre.take i) s) ∧
          pre.get ⟨i, h⟩ ∈ u') := by
  constructor
  · intro hflag
    subst hflag
    exact carve_scan_true_decomp rng ff cands board u s b' u' s' hrun
  · rintro ⟨pre, c, rest, hcands, ⟨orig, hg, hno, _⟩, _⟩
    cases flag with
    | true => rfl
    | false =>
      rw [hcands] at hrun
      exact absurd (carve_scan_false_no_removable rng ff pre c rest board u s b' u' s'
        hrun ⟨orig, hg, hno⟩) (fun f => f)

/-- A directly defined solved grid (digit `(x + 3y + y/3) % 9 + 1` at column
`x`, row `y`), used to exercise the carver theorems concretely. -/
def canonical_board : Board :=
  { rows := fun y x =>
      if x < 9 ∧ y < 9 then Tile.Filled (canonical_digit x y) else Tile.Empty
    columns := fun x y =>
      if x < 9 ∧ y < 9 then Tile.Filled (canonical_digit x y) else Tile.Empty
    blocks := fun i j =>
      if i < 9 ∧ j < 9 then
        Tile.Filled (canonical_digit (i % 3 * 3 + j % 3) (i / 3 * 3 + j / 3))
      else Tile.Empty }

/-- C3 witness: on the canonical solved board with the single candidate
(0, 0), the scan removes (0, 0) — and the theorem exhibits it as the first
candidate with no completing alternate digit. -/
theorem carve_scan_removal_iff_witness :
    ∃ pre c rest, ([⟨0, 0⟩] : List Coord) = pre ++ c :: rest ∧
      (∃ orig, canonical_board.get_tile c = Tile.Filled orig ∧
        NoCompletingAlt script_rng 3 canonical_board c (alt_digits orig)
          (scan_state script_rng 3 canonical_board pre ([], [])) ∧
        canonical_board.set_tile ⟨0, 0⟩ Tile.Empty = canonical_board.set_tile c Tile.Empty) ∧
      (∀ i (h : i < pre.length), ∃ orig₂,
        canonical_board.get_tile (pre.get ⟨i, h⟩) = Tile.Filled orig₂ ∧
        HasCompletingAlt script_rng 3 canonical_board (pre.get ⟨i, h⟩) (alt_digits orig₂)
          (scan_state script_rng 3 canonical_board (pre.take i) ([], [])) ∧
        pre.get ⟨i, h⟩ ∈ ([] : List Coord)) :=
  (carve_scan_removal_iff ScriptState script_rng 3 [⟨0, 0⟩] canonical_board [] ([], [])
    (canonical_board.set_tile ⟨0, 0⟩ Tile.Empty) [] true ([], []) (by rfl)).mp rfl
